import Mathlib

/-!
Verification development for the `memories` sync/query pipeline.

This file gives a shallow embedding, in Lean 4, of the parts of the
TypeScript source that the verified properties are about:

* `src/sync_engine/claude_code/transform/tool_extractor.ts`
* `src/sync_engine/claude_code/transform/message_classifier.ts`
* the schema mapper (`mapTo*Record`, `createSessionRecord`, `extractEnvInfo`,
  `extractAttachments`, `validateRecords`)
* `src/sync_engine/claude_code/transform/parse.ts` (`parseAndTransform`)
* `src/sync_engine/execute/database.ts` (`executeParsedEntries`) together with
  a relational-store model of the SQLite schema in
  `src/sync_engine/execute/schema.ts` (primary keys, NOT NULL columns and
  foreign keys, as enforced by `foreign_keys = ON`)
* the FK resolver in `src/sync_engine/validation/schemas.ts`
  (`parseFKError`, `FKResolver.resolveByCreatingParent`,
  `FKResolver.tryCommonResolutions`, `FKResolver.retryWithFKResolution`)
* `src/mcp-server/database/queries.ts` (`validateQuery`)
* the streaming JSONL line processor (`JSONLStreamProcessor.processFile`)
* `src/sync_engine/utils/connection_pool.ts` (`DatabasePool.acquire/release`)
* the sliding-window rate limiter in `src/config/index.ts`
  (`RateLimiter.checkSlidingWindow`)

Dynamic JavaScript values are modelled by a `Json` inductive type plus
explicit truthiness (`Json.jsTruthy`) and string coercion; `a || b`
expressions on strings become the `jsOr*` helpers (empty string is falsy).
Sources of nondeterminism in the code are threaded as parameters:
`uuidv4()` becomes a `freshId : Nat → String` supply and
`new Date().toISOString()` becomes a `now : String` argument.
-/

/-- Decidable equality for `Except` results, used to evaluate the model on
concrete inputs. -/
instance {e a : Type} [DecidableEq e] [DecidableEq a] : DecidableEq (Except e a) := fun x y =>
  match x, y with
  | .ok u, .ok v => if h : u = v then isTrue (by rw [h]) else isFalse (by simp [h])
  | .error u, .error v => if h : u = v then isTrue (by rw [h]) else isFalse (by simp [h])
  | .ok _, .error _ => isFalse (by simp)
  | .error _, .ok _ => isFalse (by simp)

/-- Model of a dynamic JSON/JavaScript value. -/
inductive Json where
  | null : Json
  | bool (b : Bool) : Json
  | num (n : Int) : Json
  | str (s : String) : Json
  | arr (xs : List Json) : Json
  | obj (fields : List (String × Json)) : Json

/-- JavaScript truthiness of a value (`undefined` is handled by `Option` at
use sites): `null`, `false`, `0` and the empty string are falsy; arrays and
objects are always truthy. -/
def Json.jsTruthy : Json → Bool
  | .null => false
  | .bool b => b
  | .num n => n != 0
  | .str s => s != ""
  | .arr _ => true
  | .obj _ => true

/-- Escape one character the way `JSON.stringify` does for the characters
that matter here. -/
def jsonEscapeChar (c : Char) : String :=
  if c = '"' then "\\\""
  else if c = '\\' then "\\\\"
  else if c = '\n' then "\\n"
  else if c = '\r' then "\\r"
  else if c = '\t' then "\\t"
  else String.singleton c

/-- Escape a whole string for JSON serialization. -/
def jsonEscape (s : String) : String :=
  String.join (s.data.map jsonEscapeChar)

mutual
/-- Model of `JSON.stringify` on a defined value. -/
def Json.serialize : Json → String
  | .null => "null"
  | .bool b => if b then "true" else "false"
  | .num n => toString n
  | .str s => "\"" ++ jsonEscape s ++ "\""
  | .arr xs => "[" ++ Json.serializeArr xs ++ "]"
  | .obj fs => "\x7b" ++ Json.serializeObj fs ++ "\x7d"

/-- Comma-separated serialization of array elements. -/
def Json.serializeArr : List Json → String
  | [] => ""
  | [x] => x.serialize
  | x :: y :: xs => x.serialize ++ "," ++ Json.serializeArr (y :: xs)

/-- Comma-separated serialization of object fields. -/
def Json.serializeObj : List (String × Json) → String
  | [] => ""
  | [(k, v)] => "\"" ++ jsonEscape k ++ "\":" ++ v.serialize
  | (k, v) :: f :: fs =>
      "\"" ++ jsonEscape k ++ "\":" ++ v.serialize ++ "," ++ Json.serializeObj (f :: fs)
end

mutual
/-- JavaScript string coercion (`String(v)`), as performed by
`Array.prototype.join` on non-string elements. -/
def Json.jsToString : Json → String
  | .null => "null"
  | .bool b => if b then "true" else "false"
  | .num n => toString n
  | .str s => s
  | .arr xs => Json.jsToStringArr xs
  | .obj _ => "[object Object]"

/-- `Array.prototype.toString` = `join(",")` with `null` rendered empty. -/
def Json.jsToStringArr : List Json → String
  | [] => ""
  | [x] => match x with | .null => "" | v => v.jsToString
  | x :: y :: xs =>
      (match x with | .null => "" | v => v.jsToString) ++ "," ++ Json.jsToStringArr (y :: xs)
end

/-- Property read `j.k` on a dynamic value: defined only for objects
(first binding wins; the sources never build duplicate keys). -/
def Json.getField : Json → String → Option Json
  | .obj fs, k => fs.lookup k
  | _, _ => none

/-- `a || b` where `a` is a possibly-undefined string and `b` a string:
`undefined` and the empty string fall through to `b`. -/
def jsOr (a : Option String) (b : String) : String :=
  match a with
  | some s => if s = "" then b else s
  | none => b

/-- `a || b` where both operands are possibly-undefined strings. -/
def jsOrOpt (a b : Option String) : Option String :=
  match a with
  | some s => if s = "" then b else some s
  | none => b

/-- `a || null` on a possibly-undefined string: the SQL binding the
executor produces (empty string becomes NULL). -/
def strOrNull (a : Option String) : Option String :=
  match a with
  | some s => if s = "" then none else some s
  | none => none

/-- Truthiness of a possibly-undefined string. -/
def strTruthy (a : Option String) : Bool :=
  match a with
  | some s => s != ""
  | none => false

/-- `a || b` where `a` is a possibly-undefined JSON value and `b` a JSON
value (used for `contentItem.input || ` empty object). -/
def jsOrJson (a : Option Json) (b : Json) : Json :=
  match a with
  | some j => if j.jsTruthy then j else b
  | none => b

/-- Character-level model of `String.prototype.trim` (strip whitespace at
both ends). -/
def trimChars (l : List Char) : List Char :=
  ((l.dropWhile (·.isWhitespace)).reverse.dropWhile (·.isWhitespace)).reverse

/-- JS `s.trim()`. -/
def jsTrim (s : String) : String := String.mk (trimChars s.data)

/-- JS `s.toUpperCase()` on ASCII text, character by character. -/
def jsToUpper (s : String) : String := String.mk (s.data.map Char.toUpper)

/-- JS `s.startsWith(p)`. -/
def jsStartsWith (s p : String) : Bool := p.data.isPrefixOf s.data

/-- One element of a `message.content` array, with exactly the dynamic
fields the transform code reads. Absent fields are `none`. -/
structure ContentItem where
  type : Option String := none
  id : Option String := none
  name : Option String := none
  input : Option Json := none
  tool_use_id : Option String := none
  content : Option Json := none
  content_type : Option String := none
  error : Option String := none
  text : Option String := none

/-- The `message.content` value of a line: a plain string, an array of
content items, or some other JSON value. -/
inductive ContentValue where
  | str (s : String) : ContentValue
  | items (l : List ContentItem) : ContentValue
  | other (j : Json) : ContentValue

/-- The nested `message` object of a JSONL line. -/
structure MessagePayload where
  role : Option String := none
  model : Option String := none
  content : Option ContentValue := none

/-- One decoded JSONL line (a Claude Code log entry), with the dynamic
fields the pipeline reads. -/
structure Entry where
  type : Option String := none
  uuid : Option String := none
  sessionId : Option String := none
  parentUuid : Option String := none
  timestamp : Option String := none
  isSidechain : Option Bool := none
  userType : Option String := none
  cwd : Option String := none
  platform : Option String := none
  osVersion : Option String := none
  gitBranch : Option String := none
  message : Option MessagePayload := none

/-- The guard `message.message?.content && Array.isArray(...)` used by
`extractToolUses`, `extractToolResults` and `containsTools`: the content
array when the entry has one, else `none`. -/
def contentItemsOf (e : Entry) : Option (List ContentItem) :=
  match e.message with
  | some m =>
      match m.content with
      | some (.items l) => some l
      | _ => none
  | none => none

/-- Content items of an entry, defaulting to the empty list. -/
def contentItemsList (e : Entry) : List ContentItem :=
  (contentItemsOf e).getD []

/-- `ToolUseData` from `tool_extractor.ts`. Field values are kept as the
dynamic reads produce them (`Option` marks a possibly-undefined value). -/
structure ToolUseData where
  id : Option String
  messageId : Option String
  toolId : Option String
  toolName : Option String
  parameters : String
deriving DecidableEq

/-- `ToolResultData` from `tool_extractor.ts`. -/
structure ToolResultData where
  id : String
  toolUseId : Option String
  messageId : Option String
  output : Option String
  outputMimeType : Option String
  error : Option String
  errorType : Option String
deriving DecidableEq

/-- Normalization of one element of an array-shaped `tool_result` content:
`typeof item === "string" ? item : (item.text || JSON.stringify(item))`. -/
def toolResultItemText (item : Json) : String :=
  match item with
  | .str s => s
  | j =>
      match j.getField "text" with
      | some t => if t.jsTruthy then t.jsToString else j.serialize
      | none => j.serialize

/-- Normalization of a `tool_result` fragment content into the `output`
column, exactly as in `extractToolResults`: falsy content gives `null`;
string content is taken as-is; an array joins its normalized elements with
a newline; anything else is serialized. -/
def toolResultOutput (c : Option Json) : Option String :=
  match c with
  | none => none
  | some j =>
      if j.jsTruthy then
        match j with
        | .str s => some s
        | .arr items => some (String.intercalate "\n" (items.map toolResultItemText))
        | other => some other.serialize
      else none

/-- `extractToolUses` from `tool_extractor.ts`, projected to the list of
extracted `ToolUseData` (the `cleanedMessage` companion value is not used
by `parse.ts` and is omitted). -/
def extractToolUses (e : Entry) : List ToolUseData :=
  match contentItemsOf e with
  | none => []
  | some l =>
      l.filterMap fun ci =>
        if ci.type = some "tool_use" then
          some { id := ci.id
                 messageId := e.uuid
                 toolId := ci.id
                 toolName := ci.name
                 parameters := (jsOrJson ci.input (Json.obj [])).serialize }
        else none

/-- Worker for `extractToolResults`: walks the content array keeping a
counter into the fresh-uuid supply (`uuidv4()` calls, one per extracted
result, in order of appearance). -/
def extractToolResultsAux (freshId : Nat → String) (uuid : Option String) :
    List ContentItem → Nat → List ToolResultData
  | [], _ => []
  | ci :: rest, n =>
      if ci.type = some "tool_result" then
        { id := freshId n
          toolUseId := ci.tool_use_id
          messageId := uuid
          output := toolResultOutput ci.content
          outputMimeType := strOrNull ci.content_type
          error := strOrNull ci.error
          errorType := if strTruthy ci.error then some "tool_error" else none }
          :: extractToolResultsAux freshId uuid rest (n + 1)
      else extractToolResultsAux freshId uuid rest n

/-- `extractToolResults` from `tool_extractor.ts`, projected to the list of
extracted `ToolResultData`. -/
def extractToolResults (freshId : Nat → String) (e : Entry) : List ToolResultData :=
  match contentItemsOf e with
  | none => []
  | some l => extractToolResultsAux freshId e.uuid l 0

/-- `containsTools` from `tool_extractor.ts`. -/
def containsTools (e : Entry) : Bool :=
  match contentItemsOf e with
  | none => false
  | some l => l.any fun ci => ci.type == some "tool_use" || ci.type == some "tool_result"

/-- Message classification kinds from `message_classifier.ts`. -/
inductive MessageType where
  | user_message
  | assistant_message
  | system_message
  | summary_message
  | tool_use_message
  | tool_result_message
  | unknown
deriving DecidableEq

/-- `ClassifiedMessage` from `message_classifier.ts` (the `originalMessage`
back-pointer is kept implicitly by passing the entry alongside). -/
structure ClassifiedMessage where
  type : MessageType
  isToolMessage : Bool
  hasTextContent : Bool
  sessionId : String
  messageId : String
  parentId : Option String
  timestamp : String
deriving DecidableEq

/-- `hasNonToolTextContent` from `message_classifier.ts`: string content is
checked by trimming; array content needs a `text` item with a truthy,
non-blank `text` field. -/
def hasNonToolTextContent (e : Entry) : Bool :=
  match e.message with
  | none => false
  | some m =>
      match m.content with
      | none => false
      | some (.str s) => s != "" && (jsTrim s).length > 0
      | some (.items l) =>
          l.any fun ci =>
            ci.type == some "text" && strTruthy ci.text &&
              (jsTrim (ci.text.getD "")).length > 0
      | some (.other j) => j.jsTruthy && false

/-- `classifyMessage` from `message_classifier.ts`. The `now` argument
stands for `new Date().toISOString()` in the timestamp default. -/
def classifyMessage (now : String) (e : Entry) : ClassifiedMessage :=
  let messageId := jsOr e.uuid ""
  let sessionId := jsOr e.sessionId ""
  let parentId := e.parentUuid
  let timestamp := jsOr e.timestamp now
  let isToolMessage := containsTools e
  let hasTextContent := hasNonToolTextContent e
  let type : MessageType :=
    if e.type = some "user" then
      if isToolMessage then .tool_result_message else .user_message
    else if e.type = some "assistant" then
      if isToolMessage then .tool_use_message else .assistant_message
    else if e.type = some "system" then .system_message
    else if e.type = some "summary" then .summary_message
    else .unknown
  { type, isToolMessage, hasTextContent, sessionId, messageId, parentId, timestamp }

/-- `shouldStoreAsMessage` from `message_classifier.ts`. -/
def shouldStoreAsMessage (c : ClassifiedMessage) : Bool :=
  if c.hasTextContent then true
  else if c.type = .system_message || c.type = .summary_message then true
  else false

/-- `getTextContent` from `message_classifier.ts`: text items joined with a
newline, falsy `text` fields dropped (`filter(Boolean)`). -/
def getTextContent (e : Entry) : String :=
  match e.message with
  | none => ""
  | some m =>
      match m.content with
      | none => ""
      | some (.str s) => s
      | some (.items l) =>
          String.intercalate "\n"
            (l.filterMap fun ci =>
              if ci.type = some "text" then
                match ci.text with
                | some t => if t = "" then none else some t
                | none => none
              else none)
      | some (.other _) => ""

/-- `extractMessageText` from `message_classifier.ts`: routes the text to
`userText` or `assistantText` by kind (`textContent || null`). -/
def extractMessageText (e : Entry) (messageType : MessageType) :
    Option String × Option String :=
  let textContent := getTextContent e
  let asOpt : Option String := if textContent = "" then none else some textContent
  if messageType = .user_message || messageType = .tool_result_message then
    (asOpt, none)
  else if messageType = .assistant_message || messageType = .tool_use_message then
    (none, asOpt)
  else (none, none)

/-- `SessionRecord` from the schema mapper. -/
structure SessionRecord where
  id : String
  sessionId : String
  sessionPath : String
deriving DecidableEq

/-- `MessageRecord` from the schema mapper. -/
structure MessageRecord where
  id : String
  sessionId : String
  type : String
  timestamp : String
  isSidechain : Bool
  projectName : Option String
  activeFile : Option String
  userText : Option String
  userType : Option String
  userAttachments : Option String
  toolUseResultId : Option String
  toolUseResultName : Option String
  assistantRole : Option String
  assistantText : Option String
  assistantModel : Option String
deriving DecidableEq

/-- `ToolUseRecord` from the schema mapper (fields typed `Option` where the
dynamic source value may be undefined at runtime). -/
structure ToolUseRecord where
  id : Option String
  messageId : Option String
  toolId : Option String
  toolName : Option String
  parameters : String
deriving DecidableEq

/-- `ToolResultRecord` from the schema mapper. -/
structure ToolResultRecord where
  id : String
  toolUseId : Option String
  messageId : Option String
  output : Option String
  outputMimeType : Option String
  error : Option String
  errorType : Option String
deriving DecidableEq

/-- `AttachmentRecord` from the schema mapper. -/
structure AttachmentRecord where
  id : String
  messageId : String
  type : String
  text : Option String
  url : Option String
  mimeType : Option String
  title : Option String
  filePath : Option String
deriving DecidableEq

/-- `EnvInfoRecord` from the schema mapper. -/
structure EnvInfoRecord where
  id : String
  messageId : String
  workingDirectory : Option String
  isGitRepo : Bool
  platform : Option String
  osVersion : Option String
  todaysDate : Option String
deriving DecidableEq

/-- `mapMessageType` from the schema mapper. -/
def mapMessageType : MessageType → String
  | .user_message => "user"
  | .tool_result_message => "user"
  | .assistant_message => "assistant"
  | .tool_use_message => "assistant"
  | .system_message => "system"
  | .summary_message => "summary"
  | .unknown => "unknown"

/-- `mapToMessageRecord` from the schema mapper. -/
def mapToMessageRecord (e : Entry) (c : ClassifiedMessage)
    (userText assistantText : Option String) : MessageRecord :=
  { id := c.messageId
    sessionId := c.sessionId
    type := mapMessageType c.type
    timestamp := c.timestamp
    isSidechain := e.isSidechain.getD false
    projectName := none
    activeFile := none
    userText := userText
    userType := strOrNull e.userType
    userAttachments := none
    toolUseResultId := none
    toolUseResultName := none
    assistantRole := strOrNull (e.message.bind (·.role))
    assistantText := assistantText
    assistantModel := strOrNull (e.message.bind (·.model)) }

/-- `mapToToolUseRecord` from the schema mapper. -/
def mapToToolUseRecord (t : ToolUseData) : ToolUseRecord :=
  { id := t.id
    messageId := t.messageId
    toolId := t.toolId
    toolName := t.toolName
    parameters := t.parameters }

/-- `mapToToolResultRecord` from the schema mapper. Note that it rebuilds
`outputMimeType` and `errorType` as `null` unconditionally, discarding the
values the extractor produced. -/
def mapToToolResultRecord (t : ToolResultData) : ToolResultRecord :=
  { id := t.id
    toolUseId := t.toolUseId
    messageId := t.messageId
    output := t.output
    outputMimeType := none
    error := t.error
    errorType := none }

/-- `createSessionRecord` from the schema mapper. -/
def createSessionRecord (c : ClassifiedMessage) (sessionPath : String) : SessionRecord :=
  { id := c.sessionId, sessionId := c.sessionId, sessionPath }

/-- `extractAttachments` from the schema mapper (a stub in the source: it
always returns the empty list). -/
def extractAttachments (_c : ClassifiedMessage) : List AttachmentRecord := []

/-- `extractEnvInfo` from the schema mapper. -/
def extractEnvInfo (e : Entry) (c : ClassifiedMessage) : Option EnvInfoRecord :=
  if ¬ strTruthy e.cwd && ¬ strTruthy e.platform && ¬ strTruthy e.gitBranch then none
  else some
    { id := "env_" ++ c.messageId
      messageId := c.messageId
      workingDirectory := strOrNull e.cwd
      isGitRepo := strTruthy e.gitBranch
      platform := strOrNull e.platform
      osVersion := strOrNull e.osVersion
      todaysDate := none }

/-- Validation errors for a message record (one loop body of
`validateRecords`). -/
def validateMessageRecord (msg : MessageRecord) : List String :=
  let missing :=
    (if msg.id = "" then ["id"] else []) ++
    (if msg.sessionId = "" then ["sessionId"] else []) ++
    (if msg.type = "" then ["type"] else []) ++
    (if msg.timestamp = "" then ["timestamp"] else [])
  if missing.length > 0 then
    ["Invalid message record " ++ jsOr (some msg.id) "unknown" ++ ": missing fields [" ++
      String.intercalate ", " missing ++ "]"]
  else []

/-- Validation errors for a tool-use record. -/
def validateToolUseRecord (tool : ToolUseRecord) : List String :=
  let missing :=
    (if ¬ strTruthy tool.id then ["id"] else []) ++
    (if ¬ strTruthy tool.messageId then ["messageId"] else []) ++
    (if ¬ strTruthy tool.toolId then ["toolId"] else []) ++
    (if ¬ strTruthy tool.toolName then ["toolName"] else [])
  if missing.length > 0 then
    ["Invalid tool use record " ++ jsOr tool.id "unknown" ++ ": missing fields [" ++
      String.intercalate ", " missing ++ "]"]
  else []

/-- Validation errors for a tool-result record. -/
def validateToolResultRecord (res : ToolResultRecord) : List String :=
  let missing :=
    (if res.id = "" then ["id"] else []) ++
    (if ¬ strTruthy res.toolUseId then ["toolUseId"] else []) ++
    (if ¬ strTruthy res.messageId then ["messageId"] else [])
  if missing.length > 0 then
    ["Invalid tool result record " ++ jsOr (some res.id) "unknown" ++ ": missing fields [" ++
      String.intercalate ", " missing ++ "]"]
  else []

/-- `validateRecords` from the schema mapper, returning the error list (its
`valid` flag is `errors.isEmpty`). -/
def validateRecords (messages : List MessageRecord) (toolUses : List ToolUseRecord)
    (toolResults : List ToolResultRecord) : List String :=
  (messages.map validateMessageRecord).flatten ++
  (toolUses.map validateToolUseRecord).flatten ++
  (toolResults.map validateToolResultRecord).flatten

/-- `ParsedEntry` from `parse.ts`. -/
structure ParsedEntry where
  session : SessionRecord
  message : Option MessageRecord
  toolUses : List ToolUseRecord
  toolResults : List ToolResultRecord
  attachments : List AttachmentRecord
  envInfo : Option EnvInfoRecord
  shouldSkipMessage : Bool
  errors : List String
deriving DecidableEq

/-- `parseAndTransform` from `parse.ts`: classify, extract tool data,
extract text, decide on message storage, map to database records, validate.
`now` stands for the current ISO timestamp, `freshId` for the uuid supply of
`extractToolResults`. -/
def parseAndTransform (now : String) (freshId : Nat → String) (e : Entry)
    (sessionPath : String := "") : ParsedEntry :=
  let classified := classifyMessage now e
  let session := createSessionRecord classified sessionPath
  let toolUses := extractToolUses e
  let toolResults := extractToolResults freshId e
  let (userText, assistantText) := extractMessageText e classified.type
  let shouldSkipMessage := ¬ shouldStoreAsMessage classified
  let message : Option MessageRecord :=
    if shouldSkipMessage then none
    else some (mapToMessageRecord e classified userText assistantText)
  let attachments := extractAttachments classified
  let envInfo := extractEnvInfo e classified
  let mappedToolUses := toolUses.map mapToToolUseRecord
  let mappedToolResults := toolResults.map mapToToolResultRecord
  let errors := validateRecords (match message with | some m => [m] | none => [])
      mappedToolUses mappedToolResults
  { session
    message
    toolUses := mappedToolUses
    toolResults := mappedToolResults
    attachments
    envInfo
    shouldSkipMessage
    errors }

/-- A row of the `sessions` table (`schema.ts`). -/
structure SessionRow where
  id : String
  sessionId : String
  sessionPath : String
deriving DecidableEq

/-- A row of the `messages` table. -/
structure MessageRow where
  id : String
  sessionId : String
  type : String
  timestamp : String
  isSidechain : Bool
  projectName : Option String
  activeFile : Option String
  userText : Option String
  userType : Option String
  userAttachments : Option String
  toolUseResultId : Option String
  toolUseResultName : Option String
  assistantRole : Option String
  assistantText : Option String
  assistantModel : Option String
deriving DecidableEq

/-- A row of the `tool_uses` table (every column NOT NULL). -/
structure ToolUseRow where
  id : String
  messageId : String
  toolId : String
  toolName : String
  parameters : String
deriving DecidableEq

/-- A row of the `tool_use_results` table. -/
structure ToolResultRow where
  id : String
  toolUseId : String
  messageId : String
  output : Option String
  outputMimeType : Option String
  error : Option String
  errorType : Option String
deriving DecidableEq

/-- A row of the `attachments` table. -/
structure AttachmentRow where
  id : String
  messageId : String
  type : String
  text : Option String
  url : Option String
  mimeType : Option String
  title : Option String
  filePath : Option String
deriving DecidableEq

/-- A row of the `env_info` table. -/
structure EnvInfoRow where
  id : String
  messageId : String
  workingDirectory : Option String
  isGitRepo : Bool
  platform : Option String
  osVersion : Option String
  todaysDate : Option String
deriving DecidableEq

/-- The relational store: the six tables of `schema.ts`, each as a list of
rows in insertion order. -/
structure Store where
  sessions : List SessionRow
  messages : List MessageRow
  toolUses : List ToolUseRow
  toolResults : List ToolResultRow
  attachments : List AttachmentRow
  envInfos : List EnvInfoRow
deriving DecidableEq

/-- The store with no rows. -/
def Store.empty : Store := ⟨[], [], [], [], [], []⟩

/-- Errors an insert can raise, mirroring the SQLite error classes the
executor distinguishes (`SQLITE_CONSTRAINT_FOREIGNKEY` is the one the FK
resolver matches on; `missingBinding` models better-sqlite3 rejecting an
`undefined` bound parameter). -/
inductive DbError where
  | fkViolation (table column : String)
  | notNullViolation (table column : String)
  | pkViolation (table : String)
  | missingBinding (context : String)
deriving DecidableEq

/-- Render a database error to the message string pushed into the result
error list. For FK violations this uses the detailed message shape that
`parseFKError` knows how to parse (charitable to the resolver: the stock
SQLite message carries no table/column detail at all). -/
def renderDbError : DbError → String
  | .fkViolation t c => "FOREIGN KEY constraint failed: " ++ t ++ "." ++ c
  | .notNullViolation t c => "NOT NULL constraint failed: " ++ t ++ "." ++ c
  | .pkViolation t => "UNIQUE constraint failed: " ++ t ++ ".id"
  | .missingBinding ctx => "Missing parameter value: " ++ ctx

/-- Presence checks by primary key, one per table, mirroring the
`SELECT id FROM ... WHERE id = ?` probes of the executor. -/
def Store.sessionIdExists (st : Store) (i : String) : Bool :=
  st.sessions.any (·.id == i)

/-- Presence of a session by its UNIQUE `sessionId` column. -/
def Store.sessionKeyExists (st : Store) (s : String) : Bool :=
  st.sessions.any (·.sessionId == s)

/-- Presence of a message row by primary key. -/
def Store.messageExists (st : Store) (i : String) : Bool :=
  st.messages.any (·.id == i)

/-- Presence of a tool-use row by primary key. -/
def Store.toolUseExists (st : Store) (i : String) : Bool :=
  st.toolUses.any (·.id == i)

/-- Presence of a tool-result row by primary key. -/
def Store.toolResultExists (st : Store) (i : String) : Bool :=
  st.toolResults.any (·.id == i)

/-- Presence of an attachment row by primary key. -/
def Store.attachmentExists (st : Store) (i : String) : Bool :=
  st.attachments.any (·.id == i)

/-- Presence of an env-info row by primary key. -/
def Store.envInfoExists (st : Store) (i : String) : Bool :=
  st.envInfos.any (·.id == i)

/-- `ensureSessionRecord` from `database.ts`:
`INSERT OR IGNORE INTO sessions (id, sessionId, sessionPath)` — ignored when
the primary key or the UNIQUE `sessionId` already exists. -/
def ensureSessionRecord (st : Store) (s : SessionRecord) : Store :=
  if st.sessionIdExists s.id || st.sessionKeyExists s.sessionId then st
  else { st with sessions := st.sessions ++ [⟨s.id, s.sessionId, s.sessionPath⟩] }

/-- `insertMessageRecord` from `database.ts`: plain `INSERT INTO messages`
with `|| null` coalescing on the nullable columns; `foreign_keys = ON`
checks `sessionId` against `sessions(sessionId)`. -/
def insertMessageRecord (st : Store) (m : MessageRecord) : Except DbError Store :=
  if st.messageExists m.id then .error (.pkViolation "messages")
  else if ¬ st.sessionKeyExists m.sessionId then .error (.fkViolation "messages" "sessionId")
  else .ok { st with messages := st.messages ++
    [{ id := m.id
       sessionId := m.sessionId
       type := m.type
       timestamp := m.timestamp
       isSidechain := m.isSidechain
       projectName := strOrNull m.projectName
       activeFile := strOrNull m.activeFile
       userText := strOrNull m.userText
       userType := strOrNull m.userType
       userAttachments := strOrNull m.userAttachments
       toolUseResultId := strOrNull m.toolUseResultId
       toolUseResultName := strOrNull m.toolUseResultName
       assistantRole := strOrNull m.assistantRole
       assistantText := strOrNull m.assistantText
       assistantModel := strOrNull m.assistantModel }] }

/-- `insertToolUseRecord` from `database.ts`: `id` and `messageId` are bound
raw (an undefined value is rejected by the driver), `toolId`, `toolName`
and `parameters` are bound `|| null` against NOT NULL columns; `messageId`
has a foreign key to `messages(id)`. -/
def insertToolUseRecord (st : Store) (tu : ToolUseRecord) : Except DbError Store :=
  match tu.id, tu.messageId with
  | none, _ => .error (.missingBinding "tool_uses.id")
  | _, none => .error (.missingBinding "tool_uses.messageId")
  | some i, some mid =>
      if st.toolUseExists i then .error (.pkViolation "tool_uses")
      else match strOrNull tu.toolId, strOrNull tu.toolName,
          strOrNull (some tu.parameters) with
      | none, _, _ => .error (.notNullViolation "tool_uses" "toolId")
      | _, none, _ => .error (.notNullViolation "tool_uses" "toolName")
      | _, _, none => .error (.notNullViolation "tool_uses" "parameters")
      | some tid, some tname, some ps =>
          if ¬ st.messageExists mid then .error (.fkViolation "tool_uses" "messageId")
          else .ok { st with toolUses := st.toolUses ++ [⟨i, mid, tid, tname, ps⟩] }

/-- `insertToolResultRecord` from `database.ts`: every column is bound
`|| null`; `toolUseId` and `messageId` are NOT NULL with foreign keys to
`tool_uses(id)` and `messages(id)`. -/
def insertToolResultRecord (st : Store) (tr : ToolResultRecord) : Except DbError Store :=
  if st.toolResultExists tr.id then .error (.pkViolation "tool_use_results")
  else match strOrNull tr.toolUseId, strOrNull tr.messageId with
  | none, _ => .error (.notNullViolation "tool_use_results" "toolUseId")
  | _, none => .error (.notNullViolation "tool_use_results" "messageId")
  | some tuid, some mid =>
      if ¬ st.toolUseExists tuid then .error (.fkViolation "tool_use_results" "toolUseId")
      else if ¬ st.messageExists mid then .error (.fkViolation "tool_use_results" "messageId")
      else .ok { st with toolResults := st.toolResults ++
        [{ id := tr.id
           toolUseId := tuid
           messageId := mid
           output := strOrNull tr.output
           outputMimeType := strOrNull tr.outputMimeType
           error := strOrNull tr.error
           errorType := strOrNull tr.errorType }] }

/-- `insertAttachmentRecord` from `database.ts`. -/
def insertAttachmentRecord (st : Store) (a : AttachmentRecord) : Except DbError Store :=
  if st.attachmentExists a.id then .error (.pkViolation "attachments")
  else match strOrNull (some a.type) with
  | none => .error (.notNullViolation "attachments" "type")
  | some t =>
      if ¬ st.messageExists a.messageId then .error (.fkViolation "attachments" "messageId")
      else .ok { st with attachments := st.attachments ++
        [{ id := a.id
           messageId := a.messageId
           type := t
           text := strOrNull a.text
           url := strOrNull a.url
           mimeType := strOrNull a.mimeType
           title := strOrNull a.title
           filePath := strOrNull a.filePath }] }

/-- `insertEnvInfoRecord` from `database.ts`. -/
def insertEnvInfoRecord (st : Store) (ei : EnvInfoRecord) : Except DbError Store :=
  if st.envInfoExists ei.id then .error (.pkViolation "env_info")
  else if ¬ st.messageExists ei.messageId then .error (.fkViolation "env_info" "messageId")
  else .ok { st with envInfos := st.envInfos ++
    [{ id := ei.id
       messageId := ei.messageId
       workingDirectory := strOrNull ei.workingDirectory
       isGitRepo := ei.isGitRepo
       platform := strOrNull ei.platform
       osVersion := strOrNull ei.osVersion
       todaysDate := strOrNull ei.todaysDate }] }

/-- `ExecuteResult` from `database.ts`. Note there is a single `updated`
counter, for messages only: skipped tool uses, tool results, attachments
and env-info rows are not counted anywhere. -/
structure ExecuteResult where
  messagesInserted : Nat
  messagesUpdated : Nat
  toolUsesInserted : Nat
  toolResultsInserted : Nat
  attachmentsInserted : Nat
  envInfoInserted : Nat
  errors : List String
deriving DecidableEq

/-- The all-zero result. -/
def ExecuteResult.empty : ExecuteResult := ⟨0, 0, 0, 0, 0, 0, []⟩

/-- Pointwise sum of two result summaries (counter addition, error
concatenation): how the per-entry deltas accumulate into the shared
mutable result object of `executeParsedEntries`. -/
def ExecuteResult.add (a b : ExecuteResult) : ExecuteResult :=
  ⟨a.messagesInserted + b.messagesInserted,
   a.messagesUpdated + b.messagesUpdated,
   a.toolUsesInserted + b.toolUsesInserted,
   a.toolResultsInserted + b.toolResultsInserted,
   a.attachmentsInserted + b.attachmentsInserted,
   a.envInfoInserted + b.envInfoInserted,
   a.errors ++ b.errors⟩

/-- The synthetic placeholder message `executeParsedEntries` builds when an
entry has tool records but no message record (`now` is
`new Date().toISOString()`; `projectName` is `sessionPath || null`). -/
def syntheticToolMessage (now : String) (p : ParsedEntry) (firstToolId : String) :
    MessageRecord :=
  { id := firstToolId
    sessionId := p.session.id
    type := "tool_message"
    timestamp := now
    isSidechain := false
    projectName := strOrNull (some p.session.sessionPath)
    activeFile := none
    userText := none
    userType := none
    userAttachments := none
    toolUseResultId := none
    toolUseResultName := none
    assistantRole := none
    assistantText := none
    assistantModel := none }

/-- The message record an entry contributes to the `messages` table:
`parsed.message` when present, else — when tool data exists and the first
tool record carries a truthy `messageId` — the synthetic placeholder. -/
def messageToInsert (now : String) (p : ParsedEntry) : Option MessageRecord :=
  match p.message with
  | some m => some m
  | none =>
      if p.toolUses.length > 0 || p.toolResults.length > 0 then
        match jsOrOpt (p.toolUses.head?.bind (·.messageId))
            (p.toolResults.head?.bind (·.messageId)) with
        | some ftid => if ftid = "" then none else some (syntheticToolMessage now p ftid)
        | none => none
      else none

/-- The `for (const toolUse of parsed.toolUses)` loop: presence check by id,
insert when absent, stop at the first thrown error (earlier successful
inserts of the same entry remain, as the whole batch runs in one
transaction and the error is caught per entry). -/
def execToolUses : Store → Nat → List ToolUseRecord → Store × Nat × Option DbError
  | st, n, [] => (st, n, none)
  | st, n, tu :: rest =>
      match tu.id with
      | none => (st, n, some (.missingBinding "tool_uses.id"))
      | some i =>
          if st.toolUseExists i then execToolUses st n rest
          else
            match insertToolUseRecord st tu with
            | .ok st2 => execToolUses st2 (n + 1) rest
            | .error e => (st, n, some e)

/-- The `for (const toolResult of parsed.toolResults)` loop. -/
def execToolResults : Store → Nat → List ToolResultRecord → Store × Nat × Option DbError
  | st, n, [] => (st, n, none)
  | st, n, tr :: rest =>
      if st.toolResultExists tr.id then execToolResults st n rest
      else
        match insertToolResultRecord st tr with
        | .ok st2 => execToolResults st2 (n + 1) rest
        | .error e => (st, n, some e)

/-- The `for (const attachment of parsed.attachments)` loop. -/
def execAttachments : Store → Nat → List AttachmentRecord → Store × Nat × Option DbError
  | st, n, [] => (st, n, none)
  | st, n, a :: rest =>
      if st.attachmentExists a.id then execAttachments st n rest
      else
        match insertAttachmentRecord st a with
        | .ok st2 => execAttachments st2 (n + 1) rest
        | .error e => (st, n, some e)

/-- The stages of one entry after the message step: tool uses, tool
results, attachments and env info, in the order of `executeParsedEntries`,
stopping at the first thrown error (which the per-entry `catch` renders
into the error list). `mi`/`mu` are the message counters accumulated so
far, `parseErrs` the parse errors already reported. -/
def execEntryTail (p : ParsedEntry) (parseErrs : List String) (st2 : Store)
    (mi mu : Nat) : Store × ExecuteResult :=
  match execToolUses st2 0 p.toolUses with
  | (st3, tun, some e) =>
      (st3, ⟨mi, mu, tun, 0, 0, 0, parseErrs ++ [renderDbError e]⟩)
  | (st3, tun, none) =>
      match execToolResults st3 0 p.toolResults with
      | (st4, trn, some e) =>
          (st4, ⟨mi, mu, tun, trn, 0, 0, parseErrs ++ [renderDbError e]⟩)
      | (st4, trn, none) =>
          match execAttachments st4 0 p.attachments with
          | (st5, an, some e) =>
              (st5, ⟨mi, mu, tun, trn, an, 0, parseErrs ++ [renderDbError e]⟩)
          | (st5, an, none) =>
              match p.envInfo with
              | none => (st5, ⟨mi, mu, tun, trn, an, 0, parseErrs⟩)
              | some ei =>
                  if st5.envInfoExists ei.id then
                    (st5, ⟨mi, mu, tun, trn, an, 0, parseErrs⟩)
                  else
                    match insertEnvInfoRecord st5 ei with
                    | .ok st6 => (st6, ⟨mi, mu, tun, trn, an, 1, parseErrs⟩)
                    | .error e =>
                        (st5, ⟨mi, mu, tun, trn, an, 0, parseErrs ++ [renderDbError e]⟩)

/-- Processing of one parsed entry inside the batch transaction of
`executeParsedEntries`: report parse errors, ensure the session, insert the
(possibly synthetic) message, then the remaining stages (`execEntryTail`);
the per-entry `catch` turns the first thrown error into one entry in the
error list and abandons the rest of the entry. Returns the new store and
this entry's delta to the result summary. -/
def execEntryCore (now : String) (st : Store) (p : ParsedEntry) : Store × ExecuteResult :=
  let parseErrs := p.errors.map (fun e => "Parse error: " ++ e)
  let st1 := ensureSessionRecord st p.session
  let mstep : Store × Nat × Nat × Option DbError :=
    match messageToInsert now p with
    | none => (st1, 0, 0, none)
    | some m =>
        if st1.messageExists m.id then (st1, 0, 1, none)
        else
          match insertMessageRecord st1 m with
          | .ok st2 => (st2, 1, 0, none)
          | .error e => (st1, 0, 0, some e)
  match mstep with
  | (st2, mi, mu, some e) =>
      (st2, ⟨mi, mu, 0, 0, 0, 0, parseErrs ++ [renderDbError e]⟩)
  | (st2, mi, mu, none) => execEntryTail p parseErrs st2 mi mu

/-- `executeParsedEntries` from `database.ts`: a single transaction over the
batch, entries processed in order, per-entry errors collected in the shared
result. (The audit logger and the SQLITE_BUSY retry wrapper do not affect
the store or the summary and are not modelled.) -/
def executeParsedEntries (now : String) (st : Store) (entries : List ParsedEntry) :
    Store × ExecuteResult :=
  entries.foldl
    (fun acc p =>
      let r := execEntryCore now acc.1 p
      (r.1, acc.2.add r.2))
    (st, ExecuteResult.empty)

/-- `FKError` from `schemas.ts` (the fields `parseFKError` fills in). -/
structure FKError where
  table : String
  column : String
  value : Option String
deriving DecidableEq

/-- `parseFKError` from `schemas.ts`: recognizes only
`SQLITE_CONSTRAINT_FOREIGNKEY` errors; the extracted record always has
`value := none` (the source literally sets `value: null` with the comment
that it would need to be extracted from context — this is what prevents the
resolver from ever learning which parent id is missing). -/
def parseFKError : DbError → Option FKError
  | .fkViolation t c => some ⟨t, c, none⟩
  | _ => none

/-- `FKResolver.resolveByCreatingParent` from `schemas.ts`, run against the
schema of `schema.ts`:
* `sessions` branch: the statement
  `INSERT OR IGNORE INTO sessions (id, path, timestamp)` names a column
  `path` that does not exist in the `sessions` table (its columns are `id`,
  `sessionId`, `sessionPath`, `created`), so preparing it throws, the catch
  swallows the error and the call returns `false` with the store unchanged;
* `messages` branch: inserts a placeholder row with
  `sessionId = parentData?.sessionId || "unknown"` and `type "placeholder"`;
  `INSERT OR IGNORE` does not suppress foreign-key violations, so when no
  session with `sessionId = "unknown"` exists the insert throws and the
  call returns `false`;
* `tool_uses` branch: the statement omits the NOT NULL `parameters` column;
  `INSERT OR IGNORE` silently skips the conflicting row, so the call
  "succeeds" (returns `true`) without creating any row;
* any other table: `false`. -/
def resolveByCreatingParent (now : String) (st : Store)
    (parentTable parentId : String) : Bool × Store :=
  match parentTable with
  | "sessions" =>
      if st.sessionIdExists parentId then (true, st) else (false, st)
  | "messages" =>
      if st.messageExists parentId then (true, st)
      else
        match insertMessageRecord st
          { id := parentId, sessionId := "unknown", type := "placeholder",
            timestamp := now, isSidechain := false, projectName := none,
            activeFile := none, userText := none, userType := none,
            userAttachments := none, toolUseResultId := none,
            toolUseResultName := none, assistantRole := none,
            assistantText := none, assistantModel := none } with
        | .ok st2 => (true, st2)
        | .error _ => (false, st)
  | "tool_uses" =>
      if st.toolUseExists parentId then (true, st) else (true, st)
  | _ => (false, st)

/-- The `fkRelationships` table of `FKResolver.tryCommonResolutions`. -/
def fkRelationships : List (String × String) :=
  [("messages.sessionId", "sessions"),
   ("tool_uses.messageId", "messages"),
   ("tool_use_results.toolUseId", "tool_uses"),
   ("attachments.messageId", "messages"),
   ("env_info.messageId", "messages")]

/-- `FKResolver.tryCommonResolutions` from `schemas.ts`: look up the parent
table for the violated relationship and create a placeholder parent with id
`fkError.value || "unknown"`. -/
def tryCommonResolutions (now : String) (st : Store) (fk : FKError) : Bool × Store :=
  match fkRelationships.lookup (fk.table ++ "." ++ fk.column) with
  | some parent => resolveByCreatingParent now st parent (jsOr fk.value "unknown")
  | none => (false, st)

/-- Outcome of `FKResolver.retryWithFKResolution`: the operation result or
the thrown error message, together with the store as the wrapper leaves it
(placeholder parents created along the way persist even on failure). -/
inductive RetryResult where
  | ok (st : Store)
  | failed (msg : String) (st : Store)
deriving DecidableEq

/-- Worker for `retryWithFKResolution`: `remaining` counts the attempts
still allowed (the loop variable is `attempt = maxRetries - remaining + 1`),
`lastErr` is the `lastError` local. `remaining = 0` is the fall-through
`throw lastError` after the loop. Non-FK errors and unparseable errors are
re-thrown immediately; a resolved violation retries the operation; an
unresolved violation on the last attempt throws the typed
"FK constraint failure after N attempts" error, otherwise the loop simply
retries. -/
def retryFKAux (now : String) (op : Store → Except DbError Store) (maxRetries : Nat) :
    Nat → Store → Option DbError → RetryResult
  | 0, st, lastErr =>
      .failed (match lastErr with
        | some e => renderDbError e
        | none => "undefined") st
  | remaining + 1, st, _ =>
      match op st with
      | .ok st2 => .ok st2
      | .error e =>
          match parseFKError e with
          | none => .failed (renderDbError e) st
          | some fk =>
              match tryCommonResolutions now st fk with
              | (true, st2) => retryFKAux now op maxRetries remaining st2 (some e)
              | (false, st2) =>
                  if remaining = 0 then
                    .failed ("FK constraint failure after " ++ toString maxRetries ++
                      " attempts: " ++ renderDbError e) st2
                  else retryFKAux now op maxRetries remaining st2 (some e)

/-- `FKResolver.retryWithFKResolution` from `schemas.ts` (default
`maxRetries = 3`). -/
def retryWithFKResolution (now : String) (op : Store → Except DbError Store)
    (maxRetries : Nat) (st : Store) : RetryResult :=
  retryFKAux now op maxRetries maxRetries st none

/-- `FORBIDDEN_KEYWORDS` from `queries.ts`. -/
def FORBIDDEN_KEYWORDS : List String :=
  ["INSERT", "UPDATE", "DELETE", "DROP", "CREATE", "ALTER", "REPLACE",
   "PRAGMA", "ATTACH", "DETACH", "VACUUM", "REINDEX"]

/-- Substring containment on character lists (`String.prototype.includes`). -/
def charsInclude (sub : List Char) : List Char → Bool
  | [] => sub.isEmpty
  | c :: rest => sub.isPrefixOf (c :: rest) || charsInclude sub rest

/-- `hay.includes(sub)`. -/
def jsIncludes (hay sub : String) : Bool :=
  charsInclude sub.data hay.data

/-- The keywords of the `/;\s*(INSERT|UPDATE|DELETE|DROP|CREATE|ALTER)/i`
injection pattern. -/
def semicolonKeywords : List String :=
  ["INSERT", "UPDATE", "DELETE", "DROP", "CREATE", "ALTER"]

/-- Matcher for `/;\s*(INSERT|...|ALTER)/i`, run on the uppercased
character list. -/
def matchSemicolonPattern : List Char → Bool
  | [] => false
  | c :: rest =>
      (c = ';' &&
        (let r := rest.dropWhile (·.isWhitespace)
         semicolonKeywords.any (fun k => k.data.isPrefixOf r))) ||
      matchSemicolonPattern rest

/-- Matcher for `/UNION\s+SELECT/i` (at least one whitespace character
between the words), run on the uppercased character list. -/
def matchUnionSelect : List Char → Bool
  | [] => false
  | c :: rest =>
      (("UNION".data).isPrefixOf (c :: rest) &&
        (let r := (c :: rest).drop 5
         let r2 := r.dropWhile (·.isWhitespace)
         decide (r2.length < r.length) && ("SELECT".data).isPrefixOf r2)) ||
      matchUnionSelect rest

/-- `validateQuery` from `queries.ts`: uppercase the trimmed statement,
require a `SELECT` prefix, reject any forbidden keyword appearing as a
substring, then reject the four injection heuristics (semicolon followed by
a mutating keyword, `UNION SELECT`, `--`, `/*`, the latter two matched on
the raw statement). -/
def validateQuery (sql : String) : Except String Unit :=
  let normalizedSql := jsToUpper (jsTrim sql)
  if ¬ jsStartsWith normalizedSql "SELECT" then
    .error "Only SELECT statements are allowed"
  else
    match FORBIDDEN_KEYWORDS.find? (fun k => jsIncludes normalizedSql k) with
    | some k => .error ("Forbidden keyword detected: " ++ k)
    | none =>
        if matchSemicolonPattern (jsToUpper sql).data ||
            matchUnionSelect (jsToUpper sql).data ||
            jsIncludes sql "--" || jsIncludes sql "/*" then
          .error "Suspicious SQL pattern detected"
        else .ok ()

/-- One delivered entry of the JSONL stream processor (`JSONLEntry`). -/
structure JsonlEntry where
  data : Json
  lineNumber : Nat
  raw : String

/-- `ProcessingStats` from the stream processor. -/
structure ProcessingStats where
  totalLines : Nat
  processedLines : Nat
  errorLines : Nat
deriving DecidableEq

/-- State of `JSONLStreamProcessor.processFile` while consuming lines:
running stats, the current batch, and the batches already handed to the
downstream processor (in order). -/
structure JsonlState where
  stats : ProcessingStats
  currentBatch : List JsonlEntry
  delivered : List (List JsonlEntry)

/-- One `line` event of `processFile`: count the line; an over-long line is
an error; a blank line is skipped silently; a decodable line joins the
current batch (flushed to the processor when it reaches `batchSize`); an
undecodable line is a parse error. `decode` models `JSON.parse` as a
partial function. -/
def processLine (decode : String → Option Json) (maxLineLength batchSize : Nat)
    (s : JsonlState) (lineNumber : Nat) (line : String) : JsonlState :=
  let stats := { s.stats with totalLines := s.stats.totalLines + 1 }
  if line.length > maxLineLength then
    { s with stats := { stats with errorLines := stats.errorLines + 1 } }
  else if jsTrim line = "" then
    { s with stats }
  else
    match decode line with
    | some data =>
        let batch := s.currentBatch ++ [⟨data, lineNumber, line⟩]
        if batch.length ≥ batchSize then
          { stats := { stats with processedLines := stats.processedLines + batch.length }
            currentBatch := []
            delivered := s.delivered ++ [batch] }
        else
          { s with stats, currentBatch := batch }
    | none =>
        { s with stats := { stats with errorLines := stats.errorLines + 1 } }

/-- Worker folding the line events over a file, tracking line numbers. -/
def processLinesAux (decode : String → Option Json) (maxLineLength batchSize : Nat) :
    JsonlState → Nat → List String → JsonlState
  | s, _, [] => s
  | s, n, line :: rest =>
      processLinesAux decode maxLineLength batchSize
        (processLine decode maxLineLength batchSize s n line) (n + 1) rest

/-- `JSONLStreamProcessor.processFile`, modelled over the file's list of
lines: fold the `line` events and flush the remaining batch on `close`.
The downstream processor is modelled as a pure accumulator (its failure
path, which marks a whole batch as errors, is outside the property this
development needs). -/
def processFileLines (decode : String → Option Json) (maxLineLength batchSize : Nat)
    (lines : List String) : JsonlState :=
  let s := processLinesAux decode maxLineLength batchSize ⟨⟨0, 0, 0⟩, [], []⟩ 1 lines
  if s.currentBatch.length > 0 then
    { stats := { s.stats with
        processedLines := s.stats.processedLines + s.currentBatch.length }
      currentBatch := []
      delivered := s.delivered ++ [s.currentBatch] }
  else s

/-- A pooled connection (`PooledConnection`), reduced to the fields the
acquire/release logic reads. -/
structure PoolConn where
  id : Nat
  inUse : Bool
deriving DecidableEq

/-- State of a `DatabasePool`: connection list, next fresh id, queue of
waiting acquirers (each identified by a caller-chosen tag), closed flag. -/
structure PoolState where
  conns : List PoolConn
  nextId : Nat
  waitQueue : List Nat
  closed : Bool
deriving DecidableEq

/-- Result of one `acquire()` call: a handle (existing idle or freshly
created), a pending wait (the caller is queued, to be resolved by a later
`release` or failed by its timeout), or the closed-pool error. -/
inductive AcquireOutcome where
  | acquired (id : Nat) (isNew : Bool)
  | enqueued
  | poolClosed
deriving DecidableEq

/-- Mark the connection with the given id as in use / not in use. -/
def setInUse (conns : List PoolConn) (i : Nat) (b : Bool) : List PoolConn :=
  conns.map fun c => if c.id = i then { c with inUse := b } else c

/-- `DatabasePool.acquire` from `connection_pool.ts`: reuse the first idle
connection; otherwise create a new one while under `maxConnections`;
otherwise append the caller to the wait queue (where a `setTimeout` for the
configured acquire timeout will fail it if no release arrives first). -/
def DatabasePool.acquire (st : PoolState) (maxConnections : Nat) (waiter : Nat) :
    AcquireOutcome × PoolState :=
  if st.closed then (.poolClosed, st)
  else
    match st.conns.find? (fun c => ¬ c.inUse) with
    | some c => (.acquired c.id false, { st with conns := setInUse st.conns c.id true })
    | none =>
        if st.conns.length < maxConnections then
          (.acquired st.nextId true,
            { st with conns := st.conns ++ [⟨st.nextId, true⟩], nextId := st.nextId + 1 })
        else
          (.enqueued, { st with waitQueue := st.waitQueue ++ [waiter] })

/-- `DatabasePool.release` from `connection_pool.ts`: mark the connection
idle, then hand it to the oldest waiter (`waitQueue.shift()`), whose
resolver re-marks it in use. Returns the waiter served, if any. -/
def DatabasePool.release (st : PoolState) (connId : Nat) : Option Nat × PoolState :=
  let conns := setInUse st.conns connId false
  match st.waitQueue with
  | [] => (none, { st with conns })
  | w :: rest =>
      (some w, { st with conns := setInUse conns connId true, waitQueue := rest })

/-- The acquire-timeout firing for a queued waiter: if the waiter is still
in the queue when the configured `acquireTimeoutMs` elapses, it is removed
and its `acquire()` call rejects with the timeout error (`true`); if a
release already served it, the timer finds nothing to remove (`false`). -/
def DatabasePool.timeoutFire (st : PoolState) (waiter : Nat) : Bool × PoolState :=
  if st.waitQueue.contains waiter then
    (true, { st with waitQueue := st.waitQueue.erase waiter })
  else (false, st)

/-- `RateLimitEntry` from `config/index.ts`. -/
structure RateLimitEntry where
  count : Nat
  windowStart : Nat
  blocked : Bool
  blockUntil : Option Nat
deriving DecidableEq

/-- Result shape of the rate-limit checks. -/
structure RateLimitDecision where
  allowed : Bool
  retryAfter : Option Nat
  remaining : Option Nat
deriving DecidableEq

/-- The sliding window size: one minute, in milliseconds. -/
def slidingWindowSize : Nat := 60000

/-- `RateLimiter.checkSlidingWindow` from `config/index.ts`, for one caller
identity (the per-client entry of the `clients` map; `none` = no entry
yet). Times are in milliseconds; `Math.ceil(x / 1000)` on a nonnegative
difference becomes `(x + 999) / 1000` on naturals. -/
def checkSlidingWindow (prev : Option RateLimitEntry) (now : Nat) (limit : Nat) :
    RateLimitDecision × RateLimitEntry :=
  let entry : RateLimitEntry :=
    match prev with
    | some e => if now - e.windowStart > slidingWindowSize then
        ⟨0, now, false, none⟩ else e
    | none => ⟨0, now, false, none⟩
  let blockedNow : Bool :=
    entry.blocked && (match entry.blockUntil with | some bu => now < bu | none => false)
  if blockedNow then
    let bu := entry.blockUntil.getD 0
    ({ allowed := false, retryAfter := some ((bu - now + 999) / 1000),
       remaining := some 0 }, entry)
  else if entry.count ≥ limit then
    let entry2 := { entry with
      blocked := true
      blockUntil := some (entry.windowStart + slidingWindowSize) }
    ({ allowed := false,
       retryAfter := some ((entry.windowStart + slidingWindowSize - now + 999) / 1000),
       remaining := some 0 }, entry2)
  else
    let entry2 := { entry with count := entry.count + 1 }
    ({ allowed := true, retryAfter := none, remaining := some (limit - entry2.count) },
      entry2)

/-- A sequence of sliding-window checks for one caller at the given times,
starting from no entry: the list of decisions and the final entry. -/
def runSlidingWindow (limit : Nat) (times : List Nat) :
    List RateLimitDecision × Option RateLimitEntry :=
  times.foldl
    (fun acc t =>
      let r := checkSlidingWindow acc.2 t limit
      (acc.1 ++ [r.1], some r.2))
    ([], none)

/-- Whether an entry contributes a row to the `messages` table (its own
record, or the synthetic tool-carrier): this predicate does not depend on
the timestamp parameter, so it is shared by both executor passes. -/
def hasMessageTarget (p : ParsedEntry) : Bool :=
  match p.message with
  | some _ => true
  | none =>
      if p.toolUses.length > 0 || p.toolResults.length > 0 then
        match jsOrOpt (p.toolUses.head?.bind (·.messageId))
            (p.toolResults.head?.bind (·.messageId)) with
        | some ftid => decide (ftid ≠ "")
        | none => false
      else false

/-- A line is well formed for the stream processor when it fits the length
bound and decodes. -/
def wellFormedLine (decode : String → Option Json) (maxLineLength : Nat)
    (line : String) : Bool :=
  decide (line.length ≤ maxLineLength) && (decode line).isSome

/-- The entries a file should contribute downstream: its well-formed lines
in file order, with their original (1-based) line numbers and decoded
values. -/
def expectedEntries (decode : String → Option Json) (maxLineLength : Nat) :
    Nat → List String → List JsonlEntry
  | _, [] => []
  | n, line :: rest =>
      if wellFormedLine decode maxLineLength line then
        match decode line with
        | some data => ⟨data, n, line⟩ :: expectedEntries decode maxLineLength (n + 1) rest
        | none => expectedEntries decode maxLineLength (n + 1) rest
      else expectedEntries decode maxLineLength (n + 1) rest

/-- The message insert of the repo's own FK-resolution integration test:
`INSERT INTO messages (id, sessionId, type, timestamp)` with id
`msg-fk-1` and the nonexistent session `non-existent-session`. -/
def fkTestMessage : MessageRecord :=
  { id := "msg-fk-1"
    sessionId := "non-existent-session"
    type := "user"
    timestamp := "2025-01-01T00:00:00Z"
    isSidechain := false
    projectName := none
    activeFile := none
    userText := none
    userType := none
    userAttachments := none
    toolUseResultId := none
    toolUseResultName := none
    assistantRole := none
    assistantText := none
    assistantModel := none }

/-- A user entry carrying one tool-result fragment with both a content
string and an error field. -/
def erroredToolResultEntry : Entry :=
  { type := some "user"
    uuid := some "m9"
    sessionId := some "s9"
    timestamp := some "T9"
    message := some
      { role := some "user"
        content := some (.items
          [{ type := some "tool_result"
             tool_use_id := some "t1"
             content := some (.str "out")
             error := some "boom" }]) } }

/-- A deterministic stand-in for the uuid supply in concrete runs. -/
def sampleFreshId (n : Nat) : String := "r" ++ toString n

/-- The concrete assistant line of the spec scenario: text "ok" plus a
tool invocation with origin id `toolu_1`. -/
def assistantToolUseEntry : Entry :=
  { type := some "assistant"
    uuid := some "m1"
    sessionId := some "s1"
    timestamp := some "T"
    message := some
      { role := some "assistant"
        content := some (.items
          [{ type := some "text", text := some "ok" },
           { type := some "tool_use", id := some "toolu_1", name := some "Read",
             input := some (Json.obj [("file_path", Json.str "/a")]) }]) } }

/-- The primary key the entry's message step will probe, independent of
the timestamp parameter (`messageToInsert` only uses `now` for the
synthetic row's timestamp, not its id). -/
def msgTargetId (p : ParsedEntry) : Option String :=
  (messageToInsert "" p).map (·.id)

/-- `st` is presence-wise below `st2`: every key visible to one of the
executor's existence probes in `st` is visible in `st2`. Inserts only
append rows, so every executor step is monotone for this relation. -/
def StorePresence (st st2 : Store) : Prop :=
  (∀ i, st.sessionIdExists i = true → st2.sessionIdExists i = true) ∧
  (∀ i, st.sessionKeyExists i = true → st2.sessionKeyExists i = true) ∧
  (∀ i, st.messageExists i = true → st2.messageExists i = true) ∧
  (∀ i, st.toolUseExists i = true → st2.toolUseExists i = true) ∧
  (∀ i, st.toolResultExists i = true → st2.toolResultExists i = true) ∧
  (∀ i, st.attachmentExists i = true → st2.attachmentExists i = true) ∧
  (∀ i, st.envInfoExists i = true → st2.envInfoExists i = true)

/-- Every row the executor would write for this entry is already present
in the store (the state an error-free pass leaves behind). -/
def EntryDone (st : Store) (p : ParsedEntry) : Prop :=
  (st.sessionIdExists p.session.id = true ∨ st.sessionKeyExists p.session.sessionId = true) ∧
  (∀ i, msgTargetId p = some i → st.messageExists i = true) ∧
  (∀ tu ∈ p.toolUses, ∃ i, tu.id = some i ∧ st.toolUseExists i = true) ∧
  (∀ tr ∈ p.toolResults, st.toolResultExists tr.id = true) ∧
  (∀ a ∈ p.attachments, st.attachmentExists a.id = true) ∧
  (∀ ei, p.envInfo = some ei → st.envInfoExists ei.id = true)

/-- First entry of the re-ingestion counterexample: a user message `mA`
together with a tool result that references the tool use `t9`, which only
a later entry of the same batch provides. -/
def forwardRefEntryA : ParsedEntry :=
  { session := ⟨"s1", "s1", "/p"⟩
    message := some
      { id := "mA"
        sessionId := "s1"
        type := "user"
        timestamp := "T1"
        isSidechain := false
        projectName := none
        activeFile := none
        userText := some "hi"
        userType := none
        userAttachments := none
        toolUseResultId := none
        toolUseResultName := none
        assistantRole := none
        assistantText := none
        assistantModel := none }
    toolUses := []
    toolResults :=
      [{ id := "r1"
         toolUseId := some "t9"
         messageId := some "mA"
         output := some "out"
         outputMimeType := none
         error := none
         errorType := none }]
    attachments := []
    envInfo := none
    shouldSkipMessage := false
    errors := [] }

/-- Second entry of the re-ingestion counterexample: the assistant message
`mB` that carries the tool use `t9`. -/
def forwardRefEntryB : ParsedEntry :=
  { session := ⟨"s1", "s1", "/p"⟩
    message := some
      { id := "mB"
        sessionId := "s1"
        type := "assistant"
        timestamp := "T2"
        isSidechain := false
        projectName := none
        activeFile := none
        userText := none
        userType := none
        userAttachments := none
        toolUseResultId := none
        toolUseResultName := none
        assistantRole := some "assistant"
        assistantText := some "ok"
        assistantModel := none }
    toolUses :=
      [{ id := some "t9"
         messageId := some "mB"
         toolId := some "t9"
         toolName := some "Read"
         parameters := "\x7b\x7d" }]
    toolResults := []
    attachments := []
    envInfo := none
    shouldSkipMessage := false
    errors := [] }

/-- A well-formed single parsed entry (message plus tool use) used to
exhibit the idempotent second pass. -/
def cleanParsedEntry : ParsedEntry :=
  { session := ⟨"s2", "s2", "/q"⟩
    message := some
      { id := "m1"
        sessionId := "s2"
        type := "assistant"
        timestamp := "T"
        isSidechain := false
        projectName := none
        activeFile := none
        userText := none
        userType := none
        userAttachments := none
        toolUseResultId := none
        toolUseResultName := none
        assistantRole := some "assistant"
        assistantText := some "ok"
        assistantModel := none }
    toolUses :=
      [{ id := some "toolu_1"
         messageId := some "m1"
         toolId := some "toolu_1"
         toolName := some "Read"
         parameters := "\x7b\x7d" }]
    toolResults := []
    attachments := []
    envInfo := none
    shouldSkipMessage := false
    errors := [] }

/-- The concrete masquerading result line of the spec scenario: outward
type user, uuid `m2`, one tool_result fragment for `toolu_1`. -/
def maskedResultEntry : Entry :=
  { type := some "user"
    uuid := some "m2"
    sessionId := some "s1"
    timestamp := some "T2"
    message := some
      { role := some "user"
        content := some (.items
          [{ type := some "tool_result", tool_use_id := some "toolu_1",
             content := some (.str "file contents") }]) } }

/-- Store state before the masquerading result line arrives: the assistant
message `m1` and its tool use `toolu_1` are already persisted. -/
def maskedResultStore : Store :=
  { sessions := []
    messages :=
      [{ id := "m1"
         sessionId := "s1"
         type := "assistant"
         timestamp := "T"
         isSidechain := false
         projectName := none
         activeFile := none
         userText := none
         userType := none
         userAttachments := none
         toolUseResultId := none
         toolUseResultName := none
         assistantRole := some "assistant"
         assistantText := some "ok"
         assistantModel := none }]
    toolUses :=
      [{ id := "toolu_1"
         messageId := "m1"
         toolId := "toolu_1"
         toolName := "Read"
         parameters := "\x7b\x7d" }]
    toolResults := []
    attachments := []
    envInfos := [] }

/-- A second deterministic uuid supply with easily provable injectivity
(distinct lengths for distinct counters), used for end-to-end runs that
need fresh, pairwise distinct result ids. -/
def replFreshId (n : Nat) : String := String.mk (List.replicate (n + 1) 'r')

/-- A concrete stand-in for `JSON.parse` in stream-processor runs: only the
two-character object literal decodes. -/
def sampleDecode (s : String) : Option Json :=
  if s = "\x7b\x7d" then some (Json.obj []) else none

/-- `runSlidingWindow` resumed from an arbitrary accumulated decision list
and client entry (the generalization the window induction runs over). -/
def runSlidingWindowFrom (limit : Nat) (acc : List RateLimitDecision)
    (prev : Option RateLimitEntry) (times : List Nat) :
    List RateLimitDecision × Option RateLimitEntry :=
  times.foldl
    (fun acc t =>
      let r := checkSlidingWindow acc.2 t limit
      (acc.1 ++ [r.1], some r.2))
    (acc, prev)

/-! ## Verified properties -/

/-- C6: every statement whose trimmed, uppercased text does not begin with
`SELECT`, and every statement containing one of the denylisted keywords
INSERT, UPDATE, DELETE, DROP, CREATE, ALTER, ATTACH, PRAGMA anywhere
(matched case-insensitively, at any nesting depth, since the check is a
substring test on the uppercased text), is rejected by `validateQuery` with
an error, before it can reach the store. -/
theorem validateQuery_rejects_nonselect_and_denylisted (sql : String)
    (h : jsStartsWith (jsToUpper (jsTrim sql)) "SELECT" = false ∨
      ∃ k ∈ ["INSERT", "UPDATE", "DELETE", "DROP", "CREATE", "ALTER", "ATTACH", "PRAGMA"],
        jsIncludes (jsToUpper (jsTrim sql)) k = true) :
    ∃ msg, validateQuery sql = Except.error msg := by
  rcases h with h | ⟨k, hk, hinc⟩
  · exact ⟨"Only SELECT statements are allowed", by simp [validateQuery, h]⟩
  · by_cases hs : jsStartsWith (jsToUpper (jsTrim sql)) "SELECT"
    · cases hfind : FORBIDDEN_KEYWORDS.find? (fun k2 => jsIncludes (jsToUpper (jsTrim sql)) k2) with
      | some k2 =>
          exact ⟨"Forbidden keyword detected: " ++ k2, by simp [validateQuery, hs, hfind]⟩
      | none =>
          exfalso
          have hmem : k ∈ FORBIDDEN_KEYWORDS := by
            simp only [List.mem_cons, List.not_mem_nil, or_false] at hk
            rcases hk with rfl | rfl | rfl | rfl | rfl | rfl | rfl | rfl <;> decide
          have := List.find?_eq_none.mp hfind k hmem
          simp [hinc] at this
    · exact ⟨"Only SELECT statements are allowed", by simp [validateQuery, hs]⟩

/-- Witness for C6 at the statement named by the claim:
`SELECT ... ; DROP TABLE x` is rejected. -/
theorem validateQuery_rejects_nonselect_and_denylisted_witness :
    ∃ msg, validateQuery "SELECT * FROM t; DROP TABLE x" = Except.error msg :=
  validateQuery_rejects_nonselect_and_denylisted "SELECT * FROM t; DROP TABLE x"
    (Or.inr ⟨"DROP", by decide, by decide⟩)

/-- C10: there are purely-reading SELECT statements that the validator
throws out. `SELECT created FROM messages LIMIT 10` begins with SELECT and
only reads a column, but the uppercased text contains `CREATE` as a
substring of the identifier `created`, so the keyword denylist rejects it;
`SELECT a--b FROM t LIMIT 5` (the arithmetic `a - (-b)`) is rejected by the
`--` comment heuristic, which is matched as a plain substring of the
statement. Neither statement ever reaches the store. -/
theorem validateQuery_rejects_some_pure_selects :
    jsStartsWith (jsToUpper (jsTrim "SELECT created FROM messages LIMIT 10")) "SELECT" = true ∧
    validateQuery "SELECT created FROM messages LIMIT 10" =
      Except.error "Forbidden keyword detected: CREATE" ∧
    jsStartsWith (jsToUpper (jsTrim "SELECT a--b FROM t LIMIT 5")) "SELECT" = true ∧
    validateQuery "SELECT a--b FROM t LIMIT 5" =
      Except.error "Suspicious SQL pattern detected" :=
  ⟨by decide, by decide, by decide, by decide⟩

/-- C3 (the code violates the claim): retrying the integration test's own
failing insert — a message whose session does not exist — never creates the
missing parent session and never lets the insert succeed. `parseFKError`
always returns `value := null`, so the resolver asks for a placeholder
parent with id "unknown" instead of the missing id; the sessions branch of
`resolveByCreatingParent` is additionally broken because its INSERT names a
column `path` that the `sessions` table does not have. After the retry
bound the wrapper throws the typed "FK constraint failure after 3 attempts"
error, the missing session `non-existent-session` was never created, and no
row of any kind was added (the final store is unchanged), contradicting the
claim (and the repo's own test), which expects the insert to succeed with
the missing parent created within the bound. -/
theorem retryWithFKResolution_cannot_repair_missing_session :
    retryWithFKResolution "2025-01-01T00:00:00Z"
        (fun st => insertMessageRecord st fkTestMessage) 3 Store.empty =
      RetryResult.failed
        ("FK constraint failure after 3 attempts: " ++
          "FOREIGN KEY constraint failed: messages.sessionId")
        Store.empty := by decide

theorem parseAndTransform_toolUses (now : String) (f : Nat → String) (e : Entry)
    (p : String) :
    (parseAndTransform now f e p).toolUses = (extractToolUses e).map mapToToolUseRecord := rfl

theorem parseAndTransform_toolResults (now : String) (f : Nat → String) (e : Entry)
    (p : String) :
    (parseAndTransform now f e p).toolResults =
      (extractToolResults f e).map mapToToolResultRecord := rfl

theorem extractToolUses_mem_iff (e : Entry) (tu : ToolUseData) :
    tu ∈ extractToolUses e ↔ ∃ ci ∈ contentItemsList e, ci.type = some "tool_use" ∧
      tu = { id := ci.id, messageId := e.uuid, toolId := ci.id, toolName := ci.name,
             parameters := (jsOrJson ci.input (Json.obj [])).serialize } := by
  unfold extractToolUses contentItemsList
  cases hc : contentItemsOf e with
  | none => simp
  | some l =>
      simp only [Option.getD_some, List.mem_filterMap]
      constructor
      · rintro ⟨ci, hm, hf⟩
        by_cases hty : ci.type = some "tool_use"
        · rw [if_pos hty] at hf
          exact ⟨ci, hm, hty, (Option.some_inj.mp hf).symm⟩
        · rw [if_neg hty] at hf
          exact absurd hf (by simp)
      · rintro ⟨ci, hm, hty, rfl⟩
        exact ⟨ci, hm, by rw [if_pos hty]⟩

theorem extractToolResultsAux_exists_of_mem (f : Nat → String) (u : Option String)
    (l : List ContentItem) (n : Nat) (tr : ToolResultData)
    (h : tr ∈ extractToolResultsAux f u l n) :
    ∃ ci ∈ l, ci.type = some "tool_result" ∧ tr.toolUseId = ci.tool_use_id ∧
      tr.messageId = u ∧ tr.output = toolResultOutput ci.content ∧
      tr.error = strOrNull ci.error ∧
      tr.errorType = (if strTruthy ci.error then some "tool_error" else none) := by
  induction l generalizing n with
  | nil => simp [extractToolResultsAux] at h
  | cons ci rest ih =>
      by_cases hty : ci.type = some "tool_result"
      · rw [extractToolResultsAux, if_pos hty] at h
        rcases List.mem_cons.mp h with rfl | h2
        · exact ⟨ci, List.mem_cons_self ci rest, hty, rfl, rfl, rfl, rfl, rfl⟩
        · obtain ⟨ci2, hm, rest2⟩ := ih (n + 1) h2
          exact ⟨ci2, List.mem_cons_of_mem ci hm, rest2⟩
      · rw [extractToolResultsAux, if_neg hty] at h
        obtain ⟨ci2, hm, rest2⟩ := ih n h
        exact ⟨ci2, List.mem_cons_of_mem ci hm, rest2⟩

theorem extractToolResultsAux_mem_of_item (f : Nat → String) (u : Option String)
    (l : List ContentItem) (n : Nat) (ci : ContentItem) (hm : ci ∈ l)
    (hty : ci.type = some "tool_result") :
    ∃ tr ∈ extractToolResultsAux f u l n, tr.toolUseId = ci.tool_use_id ∧
      tr.messageId = u ∧ tr.output = toolResultOutput ci.content ∧
      tr.error = strOrNull ci.error ∧
      tr.errorType = (if strTruthy ci.error then some "tool_error" else none) := by
  induction l generalizing n with
  | nil => simp at hm
  | cons hd rest ih =>
      rcases List.mem_cons.mp hm with rfl | h2
      · rw [extractToolResultsAux, if_pos hty]
        exact ⟨_, List.mem_cons_self _ _, rfl, rfl, rfl, rfl, rfl⟩
      · by_cases hhd : hd.type = some "tool_result"
        · rw [extractToolResultsAux, if_pos hhd]
          obtain ⟨tr, htr, rest2⟩ := ih (n + 1) h2
          exact ⟨tr, List.mem_cons_of_mem _ htr, rest2⟩
        · rw [extractToolResultsAux, if_neg hhd]
          exact ih n h2

theorem extractToolResults_exists_of_mem (f : Nat → String) (e : Entry)
    (tr : ToolResultData) (h : tr ∈ extractToolResults f e) :
    ∃ ci ∈ contentItemsList e, ci.type = some "tool_result" ∧
      tr.toolUseId = ci.tool_use_id ∧ tr.messageId = e.uuid ∧
      tr.output = toolResultOutput ci.content ∧ tr.error = strOrNull ci.error ∧
      tr.errorType = (if strTruthy ci.error then some "tool_error" else none) := by
  unfold extractToolResults at h
  unfold contentItemsList
  cases hc : contentItemsOf e with
  | none => rw [hc] at h; simp at h
  | some l =>
      rw [hc] at h
      simpa using extractToolResultsAux_exists_of_mem f e.uuid l 0 tr h

theorem extractToolResults_mem_of_item (f : Nat → String) (e : Entry)
    (ci : ContentItem) (hm : ci ∈ contentItemsList e)
    (hty : ci.type = some "tool_result") :
    ∃ tr ∈ extractToolResults f e, tr.toolUseId = ci.tool_use_id ∧
      tr.messageId = e.uuid ∧ tr.output = toolResultOutput ci.content ∧
      tr.error = strOrNull ci.error ∧
      tr.errorType = (if strTruthy ci.error then some "tool_error" else none) := by
  unfold extractToolResults
  unfold contentItemsList at hm
  cases hc : contentItemsOf e with
  | none => rw [hc] at hm; simp at hm
  | some l =>
      rw [hc] at hm
      exact extractToolResultsAux_mem_of_item f e.uuid l 0 ci (by simpa using hm) hty

/-- C1: tool identifiers are preserved verbatim through extraction and
schema mapping. For every tool-invocation fragment with origin id X the
pipeline produces a ToolUse record with id = X, and every produced ToolUse
id comes verbatim from some fragment (no id is freshly generated); for
every tool-result fragment referencing X the pipeline produces a ToolResult
record with toolUseId = X, and every produced toolUseId comes verbatim from
some fragment. -/
theorem tool_id_preserved (now : String) (freshId : Nat → String) (e : Entry)
    (path : String) :
    (∀ ci ∈ contentItemsList e, ∀ X, ci.type = some "tool_use" → ci.id = some X →
      ∃ tu ∈ (parseAndTransform now freshId e path).toolUses, tu.id = some X)
  ∧ (∀ tu ∈ (parseAndTransform now freshId e path).toolUses,
      ∃ ci ∈ contentItemsList e, ci.type = some "tool_use" ∧ tu.id = ci.id)
  ∧ (∀ ci ∈ contentItemsList e, ∀ X, ci.type = some "tool_result" →
      ci.tool_use_id = some X →
      ∃ tr ∈ (parseAndTransform now freshId e path).toolResults, tr.toolUseId = some X)
  ∧ (∀ tr ∈ (parseAndTransform now freshId e path).toolResults,
      ∃ ci ∈ contentItemsList e, ci.type = some "tool_result" ∧
        tr.toolUseId = ci.tool_use_id) := by
  refine ⟨?_, ?_, ?_, ?_⟩
  · intro ci hm X hty hid
    rw [parseAndTransform_toolUses]
    refine ⟨mapToToolUseRecord
      { id := ci.id, messageId := e.uuid, toolId := ci.id, toolName := ci.name,
        parameters := (jsOrJson ci.input (Json.obj [])).serialize },
      List.mem_map_of_mem _ ((extractToolUses_mem_iff e _).mpr ⟨ci, hm, hty, rfl⟩), ?_⟩
    simpa [mapToToolUseRecord] using hid
  · intro tu htu
    rw [parseAndTransform_toolUses] at htu
    obtain ⟨t, ht, rfl⟩ := List.mem_map.mp htu
    obtain ⟨ci, hm, hty, rfl⟩ := (extractToolUses_mem_iff e t).mp ht
    exact ⟨ci, hm, hty, rfl⟩
  · intro ci hm X hty hid
    rw [parseAndTransform_toolResults]
    obtain ⟨tr, htr, h1, h2, h3, h4, h5⟩ :=
      extractToolResults_mem_of_item freshId e ci hm hty
    exact ⟨mapToToolResultRecord tr, List.mem_map_of_mem _ htr, by
      simpa [mapToToolResultRecord, h1] using hid⟩
  · intro tr htr
    rw [parseAndTransform_toolResults] at htr
    obtain ⟨t, ht, rfl⟩ := List.mem_map.mp htr
    obtain ⟨ci, hm, hty, h1, h2, h3, h4, h5⟩ :=
      extractToolResults_exists_of_mem freshId e t ht
    exact ⟨ci, hm, hty, by simpa [mapToToolResultRecord] using h1⟩

/-- Witness for C1 at the spec scenario entries: the assistant line with
tool invocation `toolu_1` yields a ToolUse with id `toolu_1`, and a result
fragment referencing `t1` yields a ToolResult with toolUseId `t1`. -/
theorem tool_id_preserved_witness :
    (∃ tu ∈ (parseAndTransform "T" sampleFreshId assistantToolUseEntry "").toolUses,
      tu.id = some "toolu_1")
  ∧ (∃ tr ∈ (parseAndTransform "T" sampleFreshId erroredToolResultEntry "").toolResults,
      tr.toolUseId = some "t1") := by
  constructor
  · refine (tool_id_preserved "T" sampleFreshId assistantToolUseEntry "").1
      { type := some "tool_use", id := some "toolu_1", name := some "Read",
        input := some (Json.obj [("file_path", Json.str "/a")]) }
      ?_ "toolu_1" rfl rfl
    simp [contentItemsList, contentItemsOf, assistantToolUseEntry]
  · refine (tool_id_preserved "T" sampleFreshId erroredToolResultEntry "").2.2.1
      { type := some "tool_result", tool_use_id := some "t1",
        content := some (.str "out"), error := some "boom" }
      ?_ "t1" rfl rfl
    simp [contentItemsList, contentItemsOf, erroredToolResultEntry]

/-- C5 (the claim as stated fails): for a tool-result fragment that carries
an error field, the claim requires the produced record's errorType to be
the fixed marker value (`tool_error`). The extractor does set that marker,
but the schema mapper `mapToToolResultRecord` rebuilds `errorType` (and
`outputMimeType`) as null unconditionally, so the record the pipeline
produces has `error = "boom"` and `errorType = null`. -/
theorem toolResult_errorType_discarded :
    ((parseAndTransform "T" sampleFreshId erroredToolResultEntry "").toolResults.map
      (fun r => (r.error, r.errorType))) = [(some "boom", none)] := by decide

/-- C5 (amended): for every tool-result fragment the pipeline produces
exactly one ToolResult record whose output is the fragment's content
normalized by `toolResultOutput` (string content taken as-is when truthy,
arrays joined with newline with non-text fragments serialized to JSON,
single objects serialized, absent or falsy content null), and whose error
is the fragment's error when truthy; but after schema mapping `errorType`
and `outputMimeType` are always null — the extractor's fixed `tool_error`
marker is discarded by `mapToToolResultRecord`. -/
theorem toolResult_normalization (now : String) (freshId : Nat → String) (e : Entry)
    (path : String) :
    (∀ tr ∈ (parseAndTransform now freshId e path).toolResults,
      ∃ ci ∈ contentItemsList e, ci.type = some "tool_result" ∧
        tr.output = toolResultOutput ci.content ∧ tr.error = strOrNull ci.error ∧
        tr.errorType = none ∧ tr.outputMimeType = none)
  ∧ (∀ ci ∈ contentItemsList e, ci.type = some "tool_result" →
      ∃ tr ∈ (parseAndTransform now freshId e path).toolResults,
        tr.toolUseId = ci.tool_use_id ∧ tr.output = toolResultOutput ci.content ∧
        tr.error = strOrNull ci.error ∧ tr.errorType = none ∧
        tr.outputMimeType = none) := by
  constructor
  · intro tr htr
    rw [parseAndTransform_toolResults] at htr
    obtain ⟨t, ht, rfl⟩ := List.mem_map.mp htr
    obtain ⟨ci, hm, hty, h1, h2, h3, h4, h5⟩ :=
      extractToolResults_exists_of_mem freshId e t ht
    exact ⟨ci, hm, hty, by simpa [mapToToolResultRecord] using h3,
      by simpa [mapToToolResultRecord] using h4, rfl, rfl⟩
  · intro ci hm hty
    rw [parseAndTransform_toolResults]
    obtain ⟨tr, htr, h1, h2, h3, h4, h5⟩ :=
      extractToolResults_mem_of_item freshId e ci hm hty
    exact ⟨mapToToolResultRecord tr, List.mem_map_of_mem _ htr,
      by simpa [mapToToolResultRecord] using h1,
      by simpa [mapToToolResultRecord] using h3,
      by simpa [mapToToolResultRecord] using h4, rfl, rfl⟩

/-- Witness for the amended C5 at the errored fragment: output and error
flow through, errorType and outputMimeType are null. -/
theorem toolResult_normalization_witness :
    ∃ tr ∈ (parseAndTransform "T" sampleFreshId erroredToolResultEntry "").toolResults,
      tr.toolUseId = some "t1" ∧
      tr.output = toolResultOutput (some (.str "out")) ∧
      tr.error = strOrNull (some "boom") ∧ tr.errorType = none ∧
      tr.outputMimeType = none := by
  refine (toolResult_normalization "T" sampleFreshId erroredToolResultEntry "").2
    { type := some "tool_result", tool_use_id := some "t1",
      content := some (.str "out"), error := some "boom" } ?_ rfl
  simp [contentItemsList, contentItemsOf, erroredToolResultEntry]

theorem storePresence_refl (st : Store) : StorePresence st st :=
  ⟨fun _ h => h, fun _ h => h, fun _ h => h, fun _ h => h, fun _ h => h,
   fun _ h => h, fun _ h => h⟩

theorem storePresence_trans {a b c : Store} (h1 : StorePresence a b)
    (h2 : StorePresence b c) : StorePresence a c :=
  ⟨fun i h => h2.1 i (h1.1 i h), fun i h => h2.2.1 i (h1.2.1 i h),
   fun i h => h2.2.2.1 i (h1.2.2.1 i h), fun i h => h2.2.2.2.1 i (h1.2.2.2.1 i h),
   fun i h => h2.2.2.2.2.1 i (h1.2.2.2.2.1 i h),
   fun i h => h2.2.2.2.2.2.1 i (h1.2.2.2.2.2.1 i h),
   fun i h => h2.2.2.2.2.2.2 i (h1.2.2.2.2.2.2 i h)⟩

theorem storePresence_append_session (st : Store) (r : SessionRow) :
    StorePresence st { st with sessions := st.sessions ++ [r] } := by
  refine ⟨?_, ?_, ?_, ?_, ?_, ?_, ?_⟩ <;> intro i h <;>
    simp_all [Store.sessionIdExists, Store.sessionKeyExists, Store.messageExists,
      Store.toolUseExists, Store.toolResultExists, Store.attachmentExists,
      Store.envInfoExists, List.any_append]

theorem storePresence_append_message (st : Store) (r : MessageRow) :
    StorePresence st { st with messages := st.messages ++ [r] } := by
  refine ⟨?_, ?_, ?_, ?_, ?_, ?_, ?_⟩ <;> intro i h <;>
    simp_all [Store.sessionIdExists, Store.sessionKeyExists, Store.messageExists,
      Store.toolUseExists, Store.toolResultExists, Store.attachmentExists,
      Store.envInfoExists, List.any_append]

theorem storePresence_append_toolUse (st : Store) (r : ToolUseRow) :
    StorePresence st { st with toolUses := st.toolUses ++ [r] } := by
  refine ⟨?_, ?_, ?_, ?_, ?_, ?_, ?_⟩ <;> intro i h <;>
    simp_all [Store.sessionIdExists, Store.sessionKeyExists, Store.messageExists,
      Store.toolUseExists, Store.toolResultExists, Store.attachmentExists,
      Store.envInfoExists, List.any_append]

theorem storePresence_append_toolResult (st : Store) (r : ToolResultRow) :
    StorePresence st { st with toolResults := st.toolResults ++ [r] } := by
  refine ⟨?_, ?_, ?_, ?_, ?_, ?_, ?_⟩ <;> intro i h <;>
    simp_all [Store.sessionIdExists, Store.sessionKeyExists, Store.messageExists,
      Store.toolUseExists, Store.toolResultExists, Store.attachmentExists,
      Store.envInfoExists, List.any_append]

theorem storePresence_append_attachment (st : Store) (r : AttachmentRow) :
    StorePresence st { st with attachments := st.attachments ++ [r] } := by
  refine ⟨?_, ?_, ?_, ?_, ?_, ?_, ?_⟩ <;> intro i h <;>
    simp_all [Store.sessionIdExists, Store.sessionKeyExists, Store.messageExists,
      Store.toolUseExists, Store.toolResultExists, Store.attachmentExists,
      Store.envInfoExists, List.any_append]

theorem storePresence_append_envInfo (st : Store) (r : EnvInfoRow) :
    StorePresence st { st with envInfos := st.envInfos ++ [r] } := by
  refine ⟨?_, ?_, ?_, ?_, ?_, ?_, ?_⟩ <;> intro i h <;>
    simp_all [Store.sessionIdExists, Store.sessionKeyExists, Store.messageExists,
      Store.toolUseExists, Store.toolResultExists, Store.attachmentExists,
      Store.envInfoExists, List.any_append]

theorem insertMessageRecord_ok {st st2 : Store} {m : MessageRecord}
    (h : insertMessageRecord st m = .ok st2) :
    st.messageExists m.id = false ∧ st.sessionKeyExists m.sessionId = true ∧
    st2 = { st with messages := st.messages ++
      [⟨m.id, m.sessionId, m.type, m.timestamp, m.isSidechain,
        strOrNull m.projectName, strOrNull m.activeFile, strOrNull m.userText,
        strOrNull m.userType, strOrNull m.userAttachments,
        strOrNull m.toolUseResultId, strOrNull m.toolUseResultName,
        strOrNull m.assistantRole, strOrNull m.assistantText,
        strOrNull m.assistantModel⟩] } := by
  unfold insertMessageRecord at h
  by_cases h1 : st.messageExists m.id
  · simp [h1] at h
  · by_cases h2 : st.sessionKeyExists m.sessionId
    · simp only [h1, h2] at h
      simp at h
      exact ⟨by simp [h1], h2, h.symm⟩
    · simp [h1, h2] at h

theorem insertToolUseRecord_ok {st st2 : Store} {tu : ToolUseRecord}
    (h : insertToolUseRecord st tu = .ok st2) :
    ∃ i mid tid tname ps, tu.id = some i ∧ tu.messageId = some mid ∧
      strOrNull tu.toolId = some tid ∧ strOrNull tu.toolName = some tname ∧
      strOrNull (some tu.parameters) = some ps ∧
      st.toolUseExists i = false ∧ st.messageExists mid = true ∧
      st2 = { st with toolUses := st.toolUses ++ [⟨i, mid, tid, tname, ps⟩] } := by
  unfold insertToolUseRecord at h
  cases hid : tu.id with
  | none => rw [hid] at h; exact absurd h (by simp)
  | some i =>
      cases hmid : tu.messageId with
      | none => rw [hid, hmid] at h; exact absurd h (by simp)
      | some mid =>
          rw [hid, hmid] at h
          by_cases hex : st.toolUseExists i
          · simp [hex] at h
          · simp only [hex, Bool.false_eq_true, if_false] at h
            cases htid : strOrNull tu.toolId with
            | none => rw [htid] at h; exact absurd h (by simp)
            | some tid =>
                cases htn : strOrNull tu.toolName with
                | none => rw [htid, htn] at h; exact absurd h (by simp)
                | some tname =>
                    cases hps : strOrNull (some tu.parameters) with
                    | none => rw [htid, htn, hps] at h; exact absurd h (by simp)
                    | some ps =>
                        rw [htid, htn, hps] at h
                        by_cases hmex : st.messageExists mid
                        · simp only [hmex, not_true] at h
                          simp at h
                          exact ⟨i, mid, tid, tname, ps, rfl, rfl, rfl, rfl, rfl,
                            by simp [hex], hmex, h.symm⟩
                        · simp [hmex] at h

theorem insertToolResultRecord_ok {st st2 : Store} {tr : ToolResultRecord}
    (h : insertToolResultRecord st tr = .ok st2) :
    ∃ tuid mid, strOrNull tr.toolUseId = some tuid ∧ strOrNull tr.messageId = some mid ∧
      st.toolResultExists tr.id = false ∧ st.toolUseExists tuid = true ∧
      st.messageExists mid = true ∧
      st2 = { st with toolResults := st.toolResults ++
        [⟨tr.id, tuid, mid, strOrNull tr.output, strOrNull tr.outputMimeType,
          strOrNull tr.error, strOrNull tr.errorType⟩] } := by
  unfold insertToolResultRecord at h
  by_cases hex : st.toolResultExists tr.id
  · simp [hex] at h
  · simp only [hex, Bool.false_eq_true, if_false] at h
    cases htu : strOrNull tr.toolUseId with
    | none => rw [htu] at h; exact absurd h (by simp)
    | some tuid =>
        cases hmid : strOrNull tr.messageId with
        | none => rw [htu, hmid] at h; exact absurd h (by simp)
        | some mid =>
            rw [htu, hmid] at h
            by_cases htex : st.toolUseExists tuid
            · by_cases hmex : st.messageExists mid
              · simp only [htex, hmex, not_true] at h
                simp at h
                exact ⟨tuid, mid, rfl, rfl, by simp [hex], htex, hmex, h.symm⟩
              · simp [htex, hmex] at h
            · simp [htex] at h

theorem insertAttachmentRecord_ok {st st2 : Store} {a : AttachmentRecord}
    (h : insertAttachmentRecord st a = .ok st2) :
    ∃ t, strOrNull (some a.type) = some t ∧
      st.attachmentExists a.id = false ∧ st.messageExists a.messageId = true ∧
      st2 = { st with attachments := st.attachments ++
        [⟨a.id, a.messageId, t, strOrNull a.text, strOrNull a.url,
          strOrNull a.mimeType, strOrNull a.title, strOrNull a.filePath⟩] } := by
  unfold insertAttachmentRecord at h
  by_cases hex : st.attachmentExists a.id
  · simp [hex] at h
  · simp only [hex, Bool.false_eq_true, if_false] at h
    cases ht : strOrNull (some a.type) with
    | none => rw [ht] at h; exact absurd h (by simp)
    | some t =>
        rw [ht] at h
        by_cases hmex : st.messageExists a.messageId
        · simp only [hmex, not_true] at h
          simp at h
          exact ⟨t, rfl, by simp [hex], hmex, h.symm⟩
        · simp [hmex] at h

theorem insertEnvInfoRecord_ok {st st2 : Store} {ei : EnvInfoRecord}
    (h : insertEnvInfoRecord st ei = .ok st2) :
    st.envInfoExists ei.id = false ∧ st.messageExists ei.messageId = true ∧
    st2 = { st with envInfos := st.envInfos ++
      [⟨ei.id, ei.messageId, strOrNull ei.workingDirectory, ei.isGitRepo,
        strOrNull ei.platform, strOrNull ei.osVersion, strOrNull ei.todaysDate⟩] } := by
  unfold insertEnvInfoRecord at h
  by_cases hex : st.envInfoExists ei.id
  · simp [hex] at h
  · by_cases hmex : st.messageExists ei.messageId
    · simp only [hex, hmex, Bool.false_eq_true, if_false, not_true] at h
      simp at h
      exact ⟨by simp [hex], hmex, h.symm⟩
    · simp [hex, hmex] at h

theorem execToolUses_mono (trs : List ToolUseRecord) : ∀ (st : Store) (n : Nat),
    StorePresence st (execToolUses st n trs).1 := by
  induction trs with
  | nil => intro st n; exact storePresence_refl st
  | cons tu rest ih =>
      intro st n
      cases htu : tu.id with
      | none => simp [execToolUses, htu]; exact storePresence_refl st
      | some i =>
          by_cases hex : st.toolUseExists i
          · simpa [execToolUses, htu, hex] using ih st n
          · cases hins : insertToolUseRecord st tu with
            | ok st2 =>
                obtain ⟨i2, mid, tid, tname, ps, _, _, _, _, _, _, _, hst2⟩ :=
                  insertToolUseRecord_ok hins
                have h1 : StorePresence st st2 := by
                  rw [hst2]; exact storePresence_append_toolUse st _
                have h2 := ih st2 (n + 1)
                simpa [execToolUses, htu, hex, hins] using storePresence_trans h1 h2
            | error e =>
                simp [execToolUses, htu, hex, hins]
                exact storePresence_refl st

theorem execToolUses_noerr (trs : List ToolUseRecord) :
    ∀ (st : Store) (n : Nat) (st2 : Store) (n2 : Nat),
    execToolUses st n trs = (st2, n2, none) →
    ∀ tu ∈ trs, ∃ i, tu.id = some i ∧ st2.toolUseExists i = true := by
  induction trs with
  | nil => intro st n st2 n2 h tu hm; simp at hm
  | cons tu0 rest ih =>
      intro st n st2 n2 h tu hm
      cases htu : tu0.id with
      | none => simp [execToolUses, htu] at h
      | some i =>
          by_cases hex : st.toolUseExists i
          · simp only [execToolUses, htu] at h
            rw [if_pos hex] at h
            rcases List.mem_cons.mp hm with rfl | hm2
            · refine ⟨i, htu, ?_⟩
              have hmono := execToolUses_mono rest st n
              rw [h] at hmono
              exact hmono.2.2.2.1 i hex
            · exact ih st n st2 n2 h tu hm2
          · cases hins : insertToolUseRecord st tu0 with
            | ok stI =>
                simp only [execToolUses, htu] at h
                rw [if_neg hex] at h
                simp only [hins] at h
                rcases List.mem_cons.mp hm with rfl | hm2
                · obtain ⟨i2, mid, tid, tname, ps, hi2, _, _, _, _, _, _, hstI⟩ :=
                    insertToolUseRecord_ok hins
                  rw [htu] at hi2
                  have hii : i = i2 := Option.some.inj hi2
                  subst hii
                  refine ⟨i, htu, ?_⟩
                  have hpres : stI.toolUseExists i = true := by
                    rw [hstI]
                    simp [Store.toolUseExists, List.any_append]
                  have hmono := execToolUses_mono rest stI (n + 1)
                  rw [h] at hmono
                  exact hmono.2.2.2.1 i hpres
                · exact ih stI (n + 1) st2 n2 h tu hm2
            | error e =>
                simp only [execToolUses, htu] at h
                rw [if_neg hex] at h
                simp only [hins] at h
                simp at h

theorem execToolUses_done (trs : List ToolUseRecord) : ∀ (st : Store) (n : Nat),
    (∀ tu ∈ trs, ∃ i, tu.id = some i ∧ st.toolUseExists i = true) →
    execToolUses st n trs = (st, n, none) := by
  induction trs with
  | nil => intro st n _; rfl
  | cons tu rest ih =>
      intro st n hall
      obtain ⟨i, hid, hex⟩ := hall tu (List.mem_cons_self tu rest)
      simp only [execToolUses, hid]
      rw [if_pos hex]
      exact ih st n (fun t ht => hall t (List.mem_cons_of_mem tu ht))

theorem execToolResults_mono (trs : List ToolResultRecord) : ∀ (st : Store) (n : Nat),
    StorePresence st (execToolResults st n trs).1 := by
  induction trs with
  | nil => intro st n; exact storePresence_refl st
  | cons tr rest ih =>
      intro st n
      by_cases hex : st.toolResultExists tr.id
      · simpa [execToolResults, hex] using ih st n
      · cases hins : insertToolResultRecord st tr with
        | ok st2 =>
            obtain ⟨tuid, mid, _, _, _, _, _, hst2⟩ := insertToolResultRecord_ok hins
            have h1 : StorePresence st st2 := by
              rw [hst2]; exact storePresence_append_toolResult st _
            have h2 := ih st2 (n + 1)
            simpa [execToolResults, hex, hins] using storePresence_trans h1 h2
        | error e =>
            simp [execToolResults, hex, hins]
            exact storePresence_refl st

theorem execToolResults_noerr (trs : List ToolResultRecord) :
    ∀ (st : Store) (n : Nat) (st2 : Store) (n2 : Nat),
    execToolResults st n trs = (st2, n2, none) →
    ∀ tr ∈ trs, st2.toolResultExists tr.id = true := by
  induction trs with
  | nil => intro st n st2 n2 h tr hm; simp at hm
  | cons tr0 rest ih =>
      intro st n st2 n2 h tr hm
      by_cases hex : st.toolResultExists tr0.id
      · simp only [execToolResults] at h
        rw [if_pos hex] at h
        rcases List.mem_cons.mp hm with rfl | hm2
        · have hmono := execToolResults_mono rest st n
          rw [h] at hmono
          exact hmono.2.2.2.2.1 tr.id hex
        · exact ih st n st2 n2 h tr hm2
      · cases hins : insertToolResultRecord st tr0 with
        | ok stI =>
            simp only [execToolResults] at h
            rw [if_neg hex] at h
            simp only [hins] at h
            rcases List.mem_cons.mp hm with rfl | hm2
            · obtain ⟨tuid, mid, _, _, _, _, _, hstI⟩ := insertToolResultRecord_ok hins
              have hpres : stI.toolResultExists tr.id = true := by
                rw [hstI]
                simp [Store.toolResultExists, List.any_append]
              have hmono := execToolResults_mono rest stI (n + 1)
              rw [h] at hmono
              exact hmono.2.2.2.2.1 tr.id hpres
            · exact ih stI (n + 1) st2 n2 h tr hm2
        | error e =>
            simp only [execToolResults] at h
            rw [if_neg hex] at h
            simp only [hins] at h
            simp at h

theorem execToolResults_done (trs : List ToolResultRecord) : ∀ (st : Store) (n : Nat),
    (∀ tr ∈ trs, st.toolResultExists tr.id = true) →
    execToolResults st n trs = (st, n, none) := by
  induction trs with
  | nil => intro st n _; rfl
  | cons tr rest ih =>
      intro st n hall
      simp only [execToolResults]
      rw [if_pos (hall tr (List.mem_cons_self tr rest))]
      exact ih st n (fun t ht => hall t (List.mem_cons_of_mem tr ht))

theorem execAttachments_mono (ats : List AttachmentRecord) : ∀ (st : Store) (n : Nat),
    StorePresence st (execAttachments st n ats).1 := by
  induction ats with
  | nil => intro st n; exact storePresence_refl st
  | cons a rest ih =>
      intro st n
      by_cases hex : st.attachmentExists a.id
      · simpa [execAttachments, hex] using ih st n
      · cases hins : insertAttachmentRecord st a with
        | ok st2 =>
            obtain ⟨t, _, _, _, hst2⟩ := insertAttachmentRecord_ok hins
            have h1 : StorePresence st st2 := by
              rw [hst2]; exact storePresence_append_attachment st _
            have h2 := ih st2 (n + 1)
            simpa [execAttachments, hex, hins] using storePresence_trans h1 h2
        | error e =>
            simp [execAttachments, hex, hins]
            exact storePresence_refl st

theorem execAttachments_noerr (ats : List AttachmentRecord) :
    ∀ (st : Store) (n : Nat) (st2 : Store) (n2 : Nat),
    execAttachments st n ats = (st2, n2, none) →
    ∀ a ∈ ats, st2.attachmentExists a.id = true := by
  induction ats with
  | nil => intro st n st2 n2 h a hm; simp at hm
  | cons a0 rest ih =>
      intro st n st2 n2 h a hm
      by_cases hex : st.attachmentExists a0.id
      · simp only [execAttachments] at h
        rw [if_pos hex] at h
        rcases List.mem_cons.mp hm with rfl | hm2
        · have hmono := execAttachments_mono rest st n
          rw [h] at hmono
          exact hmono.2.2.2.2.2.1 a.id hex
        · exact ih st n st2 n2 h a hm2
      · cases hins : insertAttachmentRecord st a0 with
        | ok stI =>
            simp only [execAttachments] at h
            rw [if_neg hex] at h
            simp only [hins] at h
            rcases List.mem_cons.mp hm with rfl | hm2
            · obtain ⟨t, _, _, _, hstI⟩ := insertAttachmentRecord_ok hins
              have hpres : stI.attachmentExists a.id = true := by
                rw [hstI]
                simp [Store.attachmentExists, List.any_append]
              have hmono := execAttachments_mono rest stI (n + 1)
              rw [h] at hmono
              exact hmono.2.2.2.2.2.1 a.id hpres
            · exact ih stI (n + 1) st2 n2 h a hm2
        | error e =>
            simp only [execAttachments] at h
            rw [if_neg hex] at h
            simp only [hins] at h
            simp at h

theorem execAttachments_done (ats : List AttachmentRecord) : ∀ (st : Store) (n : Nat),
    (∀ a ∈ ats, st.attachmentExists a.id = true) →
    execAttachments st n ats = (st, n, none) := by
  induction ats with
  | nil => intro st n _; rfl
  | cons a rest ih =>
      intro st n hall
      simp only [execAttachments]
      rw [if_pos (hall a (List.mem_cons_self a rest))]
      exact ih st n (fun t ht => hall t (List.mem_cons_of_mem a ht))

theorem messageToInsert_map_id (now : String) (p : ParsedEntry) :
    (messageToInsert now p).map (·.id) = msgTargetId p := by
  unfold msgTargetId messageToInsert
  cases p.message with
  | some m => rfl
  | none =>
      split_ifs
      · cases jsOrOpt (p.toolUses.head?.bind (·.messageId))
            (p.toolResults.head?.bind (·.messageId)) with
        | some ftid =>
            by_cases hf : ftid = "" <;> simp [hf, syntheticToolMessage]
        | none => rfl
      · rfl

theorem hasMessageTarget_eq (now : String) (p : ParsedEntry) :
    (messageToInsert now p).isSome = hasMessageTarget p := by
  unfold hasMessageTarget messageToInsert
  cases p.message with
  | some m => rfl
  | none =>
      split_ifs
      · cases jsOrOpt (p.toolUses.head?.bind (·.messageId))
            (p.toolResults.head?.bind (·.messageId)) with
        | some ftid =>
            by_cases hf : ftid = "" <;> simp [hf]
        | none => rfl
      · rfl

theorem ensureSessionRecord_mono (st : Store) (s : SessionRecord) :
    StorePresence st (ensureSessionRecord st s) := by
  unfold ensureSessionRecord
  split
  · exact storePresence_refl st
  · exact storePresence_append_session st _

theorem ensureSessionRecord_post (st : Store) (s : SessionRecord) :
    (ensureSessionRecord st s).sessionIdExists s.id = true ∨
    (ensureSessionRecord st s).sessionKeyExists s.sessionId = true := by
  unfold ensureSessionRecord
  by_cases h : (st.sessionIdExists s.id || st.sessionKeyExists s.sessionId) = true
  · rw [if_pos h]
    rcases Bool.or_eq_true_iff.mp h with h1 | h1
    · exact Or.inl h1
    · exact Or.inr h1
  · rw [if_neg h]
    left
    simp [Store.sessionIdExists, List.any_append]

theorem ensureSessionRecord_done {st : Store} {s : SessionRecord}
    (h : st.sessionIdExists s.id = true ∨ st.sessionKeyExists s.sessionId = true) :
    ensureSessionRecord st s = st := by
  unfold ensureSessionRecord
  rcases h with h | h <;> simp [h]

theorem execEntryTail_done (p : ParsedEntry) (st : Store) (mi mu : Nat)
    (htu : ∀ tu ∈ p.toolUses, ∃ i, tu.id = some i ∧ st.toolUseExists i = true)
    (htr : ∀ tr ∈ p.toolResults, st.toolResultExists tr.id = true)
    (hat : ∀ a ∈ p.attachments, st.attachmentExists a.id = true)
    (henv : ∀ ei, p.envInfo = some ei → st.envInfoExists ei.id = true) :
    execEntryTail p [] st mi mu = (st, ⟨mi, mu, 0, 0, 0, 0, []⟩) := by
  simp only [execEntryTail,
    execToolUses_done p.toolUses st 0 htu,
    execToolResults_done p.toolResults st 0 htr,
    execAttachments_done p.attachments st 0 hat]
  cases he : p.envInfo with
  | none => simp
  | some ei => simp [henv ei he]

theorem execEntryCore_done (now : String) (st : Store) (p : ParsedEntry)
    (hd : EntryDone st p) (hp : p.errors = []) :
    execEntryCore now st p =
      (st, ⟨0, if hasMessageTarget p then 1 else 0, 0, 0, 0, 0, []⟩) := by
  obtain ⟨hsess, hmsg, htu, htr, hat, henv⟩ := hd
  have hens : ensureSessionRecord st p.session = st := ensureSessionRecord_done hsess
  cases hmt : messageToInsert now p with
  | none =>
      have htarget : hasMessageTarget p = false := by
        rw [← hasMessageTarget_eq now p, hmt]; rfl
      rw [htarget]
      simp only [execEntryCore, hens, hp, hmt, List.map_nil]
      exact execEntryTail_done p st 0 0 htu htr hat henv
  | some m =>
      have htarget : hasMessageTarget p = true := by
        rw [← hasMessageTarget_eq now p, hmt]; rfl
      have hmex : st.messageExists m.id = true := by
        refine hmsg m.id ?_
        rw [← messageToInsert_map_id now p, hmt]; rfl
      rw [htarget]
      simp only [execEntryCore, hens, hp, hmt, List.map_nil, hmex, if_true]
      exact execEntryTail_done p st 0 1 htu htr hat henv

theorem execEntryTail_mono (p : ParsedEntry) (parseErrs : List String) (st : Store)
    (mi mu : Nat) : StorePresence st (execEntryTail p parseErrs st mi mu).1 := by
  rcases h3 : execToolUses st 0 p.toolUses with ⟨st3, tun, e3⟩
  have m3 : StorePresence st st3 := by
    have := execToolUses_mono p.toolUses st 0
    rwa [h3] at this
  cases e3 with
  | some e => simp only [execEntryTail, h3]; exact m3
  | none =>
      rcases h4 : execToolResults st3 0 p.toolResults with ⟨st4, trn, e4⟩
      have m4 : StorePresence st st4 := by
        have := execToolResults_mono p.toolResults st3 0
        rw [h4] at this
        exact storePresence_trans m3 this
      cases e4 with
      | some e => simp only [execEntryTail, h3, h4]; exact m4
      | none =>
          rcases h5 : execAttachments st4 0 p.attachments with ⟨st5, an, e5⟩
          have m5 : StorePresence st st5 := by
            have := execAttachments_mono p.attachments st4 0
            rw [h5] at this
            exact storePresence_trans m4 this
          cases e5 with
          | some e => simp only [execEntryTail, h3, h4, h5]; exact m5
          | none =>
              cases he : p.envInfo with
              | none => simp only [execEntryTail, h3, h4, h5, he]; exact m5
              | some ei =>
                  by_cases hex : st5.envInfoExists ei.id
                  · simp only [execEntryTail, h3, h4, h5, he, hex, if_true]
                    exact m5
                  · cases hins : insertEnvInfoRecord st5 ei with
                    | ok st6 =>
                        obtain ⟨_, _, hst6⟩ := insertEnvInfoRecord_ok hins
                        simp only [execEntryTail, h3, h4, h5, he, hex,
                          Bool.false_eq_true, if_false, hins]
                        rw [hst6]
                        exact storePresence_trans m5 (storePresence_append_envInfo st5 _)
                    | error e =>
                        simp only [execEntryTail, h3, h4, h5, he, hex,
                          Bool.false_eq_true, if_false, hins]
                        exact m5

theorem execEntryTail_noerr (p : ParsedEntry) (parseErrs : List String) (st : Store)
    (mi mu : Nat)
    (h : (execEntryTail p parseErrs st mi mu).2.errors = []) :
    parseErrs = [] ∧
    (∀ tu ∈ p.toolUses, ∃ i, tu.id = some i ∧
      (execEntryTail p parseErrs st mi mu).1.toolUseExists i = true) ∧
    (∀ tr ∈ p.toolResults,
      (execEntryTail p parseErrs st mi mu).1.toolResultExists tr.id = true) ∧
    (∀ a ∈ p.attachments,
      (execEntryTail p parseErrs st mi mu).1.attachmentExists a.id = true) ∧
    (∀ ei, p.envInfo = some ei →
      (execEntryTail p parseErrs st mi mu).1.envInfoExists ei.id = true) := by
  rcases h3 : execToolUses st 0 p.toolUses with ⟨st3, tun, e3⟩
  cases e3 with
  | some e => simp [execEntryTail, h3] at h
  | none =>
      have htu3 := execToolUses_noerr p.toolUses st 0 st3 tun h3
      rcases h4 : execToolResults st3 0 p.toolResults with ⟨st4, trn, e4⟩
      cases e4 with
      | some e => simp [execEntryTail, h3, h4] at h
      | none =>
          have htr4 := execToolResults_noerr p.toolResults st3 0 st4 trn h4
          have m4 : StorePresence st3 st4 := by
            have := execToolResults_mono p.toolResults st3 0
            rwa [h4] at this
          rcases h5 : execAttachments st4 0 p.attachments with ⟨st5, an, e5⟩
          cases e5 with
          | some e => simp [execEntryTail, h3, h4, h5] at h
          | none =>
              have hat5 := execAttachments_noerr p.attachments st4 0 st5 an h5
              have m5 : StorePresence st4 st5 := by
                have := execAttachments_mono p.attachments st4 0
                rwa [h5] at this
              cases he : p.envInfo with
              | none =>
                  simp only [execEntryTail, h3, h4, h5, he] at h ⊢
                  refine ⟨h, ?_, ?_, ?_, ?_⟩
                  · intro tu hm
                    obtain ⟨i, hid, hex⟩ := htu3 tu hm
                    exact ⟨i, hid, (storePresence_trans m4 m5).2.2.2.1 i hex⟩
                  · intro tr hm
                    exact m5.2.2.2.2.1 tr.id (htr4 tr hm)
                  · intro a hm
                    exact hat5 a hm
                  · intro ei hei
                    simp at hei
              | some ei =>
                  by_cases hex : st5.envInfoExists ei.id
                  · simp only [execEntryTail, h3, h4, h5, he, hex, if_true] at h ⊢
                    refine ⟨h, ?_, ?_, ?_, ?_⟩
                    · intro tu hm
                      obtain ⟨i, hid, hexi⟩ := htu3 tu hm
                      exact ⟨i, hid, (storePresence_trans m4 m5).2.2.2.1 i hexi⟩
                    · intro tr hm
                      exact m5.2.2.2.2.1 tr.id (htr4 tr hm)
                    · intro a hm
                      exact hat5 a hm
                    · intro ei2 hei2
                      cases hei2
                      exact hex
                  · cases hins : insertEnvInfoRecord st5 ei with
                    | ok st6 =>
                        simp only [execEntryTail, h3, h4, h5, he, hex,
                          Bool.false_eq_true, if_false, hins] at h ⊢
                        obtain ⟨_, _, hst6⟩ := insertEnvInfoRecord_ok hins
                        have m6 : StorePresence st5 st6 := by
                          rw [hst6]
                          exact storePresence_append_envInfo st5 _
                        refine ⟨h, ?_, ?_, ?_, ?_⟩
                        · intro tu hm
                          obtain ⟨i, hid, hexi⟩ := htu3 tu hm
                          exact ⟨i, hid,
                            (storePresence_trans (storePresence_trans m4 m5) m6).2.2.2.1
                              i hexi⟩
                        · intro tr hm
                          exact (storePresence_trans m5 m6).2.2.2.2.1 tr.id (htr4 tr hm)
                        · intro a hm
                          exact m6.2.2.2.2.2.1 a.id (hat5 a hm)
                        · intro ei2 hei2
                          cases hei2
                          rw [hst6]
                          simp [Store.envInfoExists, List.any_append]
                    | error e =>
                        simp [execEntryTail, h3, h4, h5, he, hex, hins] at h

theorem execEntryCore_mono (now : String) (st : Store) (p : ParsedEntry) :
    StorePresence st (execEntryCore now st p).1 := by
  have m1 : StorePresence st (ensureSessionRecord st p.session) :=
    ensureSessionRecord_mono st p.session
  cases hmt : messageToInsert now p with
  | none =>
      simp only [execEntryCore, hmt]
      exact storePresence_trans m1 (execEntryTail_mono p _ _ 0 0)
  | some m =>
      by_cases hmex : (ensureSessionRecord st p.session).messageExists m.id
      · simp only [execEntryCore, hmt, hmex, if_true]
        exact storePresence_trans m1 (execEntryTail_mono p _ _ 0 1)
      · cases hins : insertMessageRecord (ensureSessionRecord st p.session) m with
        | ok st2 =>
            obtain ⟨_, _, hst2⟩ := insertMessageRecord_ok hins
            simp only [execEntryCore, hmt, hmex, Bool.false_eq_true, if_false, hins]
            refine storePresence_trans m1 (storePresence_trans ?_ (execEntryTail_mono p _ _ 1 0))
            rw [hst2]
            exact storePresence_append_message _ _
        | error e =>
            simp only [execEntryCore, hmt, hmex, Bool.false_eq_true, if_false, hins]
            exact m1

theorem execEntryCore_noerr (now : String) (st : Store) (p : ParsedEntry)
    (h : (execEntryCore now st p).2.errors = []) :
    EntryDone (execEntryCore now st p).1 p ∧ p.errors = [] := by
  have hsess := ensureSessionRecord_post st p.session
  cases hmt : messageToInsert now p with
  | none =>
      simp only [execEntryCore, hmt] at h ⊢
      obtain ⟨hpe, htu, htr, hat, henv⟩ :=
        execEntryTail_noerr p _ (ensureSessionRecord st p.session) 0 0 h
      have mtail := execEntryTail_mono p (p.errors.map (fun e => "Parse error: " ++ e))
        (ensureSessionRecord st p.session) 0 0
      refine ⟨⟨?_, ?_, htu, htr, hat, henv⟩, ?_⟩
      · rcases hsess with hs | hs
        · exact Or.inl (mtail.1 _ hs)
        · exact Or.inr (mtail.2.1 _ hs)
      · intro i hi
        rw [← messageToInsert_map_id now p, hmt] at hi
        simp at hi
      · exact List.map_eq_nil_iff.mp hpe
  | some m =>
      have hid : msgTargetId p = some m.id := by
        rw [← messageToInsert_map_id now p, hmt]; rfl
      by_cases hmex : (ensureSessionRecord st p.session).messageExists m.id
      · simp only [execEntryCore, hmt, hmex, if_true] at h ⊢
        obtain ⟨hpe, htu, htr, hat, henv⟩ :=
          execEntryTail_noerr p _ (ensureSessionRecord st p.session) 0 1 h
        have mtail := execEntryTail_mono p (p.errors.map (fun e => "Parse error: " ++ e))
          (ensureSessionRecord st p.session) 0 1
        refine ⟨⟨?_, ?_, htu, htr, hat, henv⟩, List.map_eq_nil_iff.mp hpe⟩
        · rcases hsess with hs | hs
          · exact Or.inl (mtail.1 _ hs)
          · exact Or.inr (mtail.2.1 _ hs)
        · intro i hi
          rw [hid] at hi
          cases hi
          exact mtail.2.2.1 m.id hmex
      · cases hins : insertMessageRecord (ensureSessionRecord st p.session) m with
        | ok st2 =>
            simp only [execEntryCore, hmt, hmex, Bool.false_eq_true, if_false, hins] at h ⊢
            obtain ⟨hpe, htu, htr, hat, henv⟩ := execEntryTail_noerr p _ st2 1 0 h
            have mtail := execEntryTail_mono p (p.errors.map (fun e => "Parse error: " ++ e))
              st2 1 0
            obtain ⟨_, _, hst2⟩ := insertMessageRecord_ok hins
            have m2 : StorePresence (ensureSessionRecord st p.session) st2 := by
              rw [hst2]
              exact storePresence_append_message _ _
            refine ⟨⟨?_, ?_, htu, htr, hat, henv⟩, List.map_eq_nil_iff.mp hpe⟩
            · rcases hsess with hs | hs
              · exact Or.inl (mtail.1 _ (m2.1 _ hs))
              · exact Or.inr (mtail.2.1 _ (m2.2.1 _ hs))
            · intro i hi
              rw [hid] at hi
              cases hi
              have hpost : st2.messageExists m.id = true := by
                rw [hst2]
                simp [Store.messageExists, List.any_append]
              exact mtail.2.2.1 m.id hpost
        | error e =>
            simp [execEntryCore, hmt, hmex, hins] at h

theorem ExecuteResult.empty_add (r : ExecuteResult) : ExecuteResult.empty.add r = r := by
  simp [ExecuteResult.add, ExecuteResult.empty]

theorem ExecuteResult.add_empty (r : ExecuteResult) : r.add ExecuteResult.empty = r := by
  simp [ExecuteResult.add, ExecuteResult.empty]

theorem ExecuteResult.add_assoc (a b c : ExecuteResult) :
    (a.add b).add c = a.add (b.add c) := by
  simp [ExecuteResult.add, Nat.add_assoc]

theorem execFold_shift (now : String) (es : List ParsedEntry) :
    ∀ (st : Store) (r0 : ExecuteResult),
    (es.foldl (fun acc p =>
        let r := execEntryCore now acc.1 p
        (r.1, acc.2.add r.2)) (st, r0)) =
      ((executeParsedEntries now st es).1, r0.add (executeParsedEntries now st es).2) := by
  induction es with
  | nil =>
      intro st r0
      simp [executeParsedEntries, ExecuteResult.add_empty]
  | cons p rest ih =>
      intro st r0
      have hx : executeParsedEntries now st (p :: rest) =
          ((rest.foldl (fun acc p =>
            let r := execEntryCore now acc.1 p
            (r.1, acc.2.add r.2))
            ((execEntryCore now st p).1, ExecuteResult.empty.add (execEntryCore now st p).2))) := by
        simp [executeParsedEntries]
      rw [List.foldl_cons, ih, hx, ih]
      rw [ExecuteResult.empty_add, ExecuteResult.add_assoc]

theorem executeParsedEntries_cons (now : String) (st : Store) (p : ParsedEntry)
    (es : List ParsedEntry) :
    executeParsedEntries now st (p :: es) =
      ((executeParsedEntries now (execEntryCore now st p).1 es).1,
        (execEntryCore now st p).2.add
          (executeParsedEntries now (execEntryCore now st p).1 es).2) := by
  unfold executeParsedEntries
  rw [List.foldl_cons]
  have := execFold_shift now es (execEntryCore now st p).1
    (ExecuteResult.empty.add (execEntryCore now st p).2)
  rw [this, ExecuteResult.empty_add]
  rfl

theorem executeParsedEntries_mono (now : String) (es : List ParsedEntry) :
    ∀ st : Store, StorePresence st (executeParsedEntries now st es).1 := by
  induction es with
  | nil => intro st; exact storePresence_refl st
  | cons p rest ih =>
      intro st
      rw [executeParsedEntries_cons]
      exact storePresence_trans (execEntryCore_mono now st p)
        (ih (execEntryCore now st p).1)

theorem entryDone_mono {st st2 : Store} {p : ParsedEntry}
    (hd : EntryDone st p) (hm : StorePresence st st2) : EntryDone st2 p := by
  obtain ⟨h1, h2, h3, h4, h5, h6⟩ := hd
  refine ⟨?_, ?_, ?_, ?_, ?_, ?_⟩
  · rcases h1 with h | h
    · exact Or.inl (hm.1 _ h)
    · exact Or.inr (hm.2.1 _ h)
  · intro i hi
    exact hm.2.2.1 i (h2 i hi)
  · intro tu htu
    obtain ⟨i, hid, hex⟩ := h3 tu htu
    exact ⟨i, hid, hm.2.2.2.1 i hex⟩
  · intro tr htr
    exact hm.2.2.2.2.1 _ (h4 tr htr)
  · intro a ha
    exact hm.2.2.2.2.2.1 _ (h5 a ha)
  · intro ei hei
    exact hm.2.2.2.2.2.2 _ (h6 ei hei)

theorem executeParsedEntries_noerr (now : String) (es : List ParsedEntry) :
    ∀ st : Store, (executeParsedEntries now st es).2.errors = [] →
    ∀ p ∈ es, EntryDone (executeParsedEntries now st es).1 p ∧ p.errors = [] := by
  induction es with
  | nil => intro st h p hp; simp at hp
  | cons q rest ih =>
      intro st h p hp
      rw [executeParsedEntries_cons] at h ⊢
      have herr : (execEntryCore now st q).2.errors = [] ∧
          (executeParsedEntries now (execEntryCore now st q).1 rest).2.errors = [] := by
        have : ((execEntryCore now st q).2.add
            (executeParsedEntries now (execEntryCore now st q).1 rest).2).errors =
            (execEntryCore now st q).2.errors ++
            (executeParsedEntries now (execEntryCore now st q).1 rest).2.errors := rfl
        rw [this] at h
        exact List.append_eq_nil.mp h
      rcases List.mem_cons.mp hp with rfl | hp2
      · obtain ⟨hdone, hperr⟩ := execEntryCore_noerr now st p herr.1
        exact ⟨entryDone_mono hdone
          (executeParsedEntries_mono now rest (execEntryCore now st p).1), hperr⟩
      · exact ih (execEntryCore now st q).1 herr.2 p hp2

theorem executeParsedEntries_done (now : String) (es : List ParsedEntry) :
    ∀ st : Store, (∀ p ∈ es, EntryDone st p ∧ p.errors = []) →
    executeParsedEntries now st es =
      (st, ⟨0, es.countP hasMessageTarget, 0, 0, 0, 0, []⟩) := by
  induction es with
  | nil => intro st _; simp [executeParsedEntries, List.countP]; rfl
  | cons p rest ih =>
      intro st hall
      obtain ⟨hd, hpe⟩ := hall p (List.mem_cons_self p rest)
      have hstep := execEntryCore_done now st p hd hpe
      rw [executeParsedEntries_cons, hstep]
      have hrest := ih st (fun q hq => hall q (List.mem_cons_of_mem p hq))
      rw [hrest]
      refine Prod.ext rfl ?_
      simp only [ExecuteResult.add]
      have hcount : (p :: rest).countP hasMessageTarget =
          (if hasMessageTarget p then 1 else 0) + rest.countP hasMessageTarget := by
        rw [List.countP_cons]
        by_cases hb : hasMessageTarget p <;> simp [hb, Nat.add_comm]
      simp [hcount, Nat.add_comm]

/-- C2 (the claim as stated fails): a second executor pass over the same
parsed entries can insert new rows. Entry A carries a tool result whose
tool use `t9` is only created by the later entry B, so in the first pass
the tool-result insert fails its foreign key (the per-entry catch records
the error) while B's message and tool use are persisted; in the second
pass the same tool-result insert now succeeds, so the pass inserts one
additional `tool_use_results` row — not zero — and of the four records in
the batch the summary counts only the two messages as "updated" (the
`ExecuteResult` type has no updated counter for tool uses or results). -/
theorem executor_second_pass_inserts_row :
    (executeParsedEntries "T2"
      (executeParsedEntries "T1" Store.empty [forwardRefEntryA, forwardRefEntryB]).1
      [forwardRefEntryA, forwardRefEntryB]).2.toolResultsInserted = 1 ∧
    (executeParsedEntries "T2"
      (executeParsedEntries "T1" Store.empty [forwardRefEntryA, forwardRefEntryB]).1
      [forwardRefEntryA, forwardRefEntryB]).1.toolResults.length =
      (executeParsedEntries "T1" Store.empty
        [forwardRefEntryA, forwardRefEntryB]).1.toolResults.length + 1 ∧
    (executeParsedEntries "T2"
      (executeParsedEntries "T1" Store.empty [forwardRefEntryA, forwardRefEntryB]).1
      [forwardRefEntryA, forwardRefEntryB]).2.messagesUpdated = 2 := by
  refine ⟨by decide, by decide, by decide⟩

/-- C2 (amended): when the first executor pass over a batch of parsed
entries reports no errors, a second pass over the same parsed entries
against the resulting store inserts zero additional rows of any kind — the
store is left exactly unchanged — and reports zero inserted counts of every
kind; each entry that contributes a message row is counted as "updated",
while skipped tool uses, tool results, attachments and env-info rows are
not counted anywhere (the result summary has no updated counter for
them). -/
theorem executor_idempotent_reingestion (now1 now2 : String)
    (entries : List ParsedEntry) (st0 : Store)
    (h : (executeParsedEntries now1 st0 entries).2.errors = []) :
    executeParsedEntries now2 (executeParsedEntries now1 st0 entries).1 entries =
      ((executeParsedEntries now1 st0 entries).1,
        ⟨0, entries.countP hasMessageTarget, 0, 0, 0, 0, []⟩) :=
  executeParsedEntries_done now2 entries (executeParsedEntries now1 st0 entries).1
    (executeParsedEntries_noerr now1 entries st0 h)

/-- Witness for the amended C2: one entry with a message and a tool use,
ingested twice from the empty store: the second pass leaves the store
unchanged, inserts nothing and counts the message as updated. -/
theorem executor_idempotent_reingestion_witness :
    executeParsedEntries "T2" (executeParsedEntries "T1" Store.empty [cleanParsedEntry]).1
        [cleanParsedEntry] =
      ((executeParsedEntries "T1" Store.empty [cleanParsedEntry]).1,
        ⟨0, [cleanParsedEntry].countP hasMessageTarget, 0, 0, 0, 0, []⟩) :=
  executor_idempotent_reingestion "T1" "T2" [cleanParsedEntry] Store.empty (by decide)

theorem insertMessageRecord_succeeds {st : Store} {m : MessageRecord}
    (hex : st.messageExists m.id = false)
    (hsk : st.sessionKeyExists m.sessionId = true) :
    insertMessageRecord st m = .ok { st with messages := st.messages ++
      [⟨m.id, m.sessionId, m.type, m.timestamp, m.isSidechain,
        strOrNull m.projectName, strOrNull m.activeFile, strOrNull m.userText,
        strOrNull m.userType, strOrNull m.userAttachments,
        strOrNull m.toolUseResultId, strOrNull m.toolUseResultName,
        strOrNull m.assistantRole, strOrNull m.assistantText,
        strOrNull m.assistantModel⟩] } := by
  unfold insertMessageRecord
  simp [hex, hsk]

theorem insertToolResultRecord_succeeds {st : Store} {tr : ToolResultRecord}
    {tuid mid : String}
    (hex : st.toolResultExists tr.id = false)
    (htu : strOrNull tr.toolUseId = some tuid)
    (hmid : strOrNull tr.messageId = some mid)
    (htex : st.toolUseExists tuid = true)
    (hmex : st.messageExists mid = true) :
    insertToolResultRecord st tr = .ok { st with toolResults := st.toolResults ++
      [⟨tr.id, tuid, mid, strOrNull tr.output, strOrNull tr.outputMimeType,
        strOrNull tr.error, strOrNull tr.errorType⟩] } := by
  unfold insertToolResultRecord
  simp [hex, htu, hmid, htex, hmex]

theorem execToolResults_all_insert (trs : List ToolResultRecord) :
    ∀ (st : Store) (n : Nat),
    trs.Pairwise (fun a b => a.id ≠ b.id) →
    (∀ tr ∈ trs, st.toolResultExists tr.id = false) →
    (∀ tr ∈ trs, ∃ tuid mid, strOrNull tr.toolUseId = some tuid ∧
      strOrNull tr.messageId = some mid ∧ st.toolUseExists tuid = true ∧
      st.messageExists mid = true) →
    ∃ rows, execToolResults st n trs =
      ({ st with toolResults := st.toolResults ++ rows }, n + trs.length, none) ∧
      List.Forall₂ (fun (row : ToolResultRow) (tr : ToolResultRecord) =>
        row.id = tr.id ∧ some row.toolUseId = strOrNull tr.toolUseId ∧
        some row.messageId = strOrNull tr.messageId ∧
        row.output = strOrNull tr.output) rows trs := by
  induction trs with
  | nil =>
      intro st n _ _ _
      exact ⟨[], by simp [execToolResults], List.Forall₂.nil⟩
  | cons tr rest ih =>
      intro st n hpw hfresh hok
      obtain ⟨tuid, mid, htu, hmid, htex, hmex⟩ := hok tr (List.mem_cons_self tr rest)
      have hex : st.toolResultExists tr.id = false := hfresh tr (List.mem_cons_self tr rest)
      have hins := insertToolResultRecord_succeeds hex htu hmid htex hmex
      have hpw2 := (List.pairwise_cons.mp hpw).2
      have hhd := (List.pairwise_cons.mp hpw).1
      set row : ToolResultRow :=
        ⟨tr.id, tuid, mid, strOrNull tr.output, strOrNull tr.outputMimeType,
          strOrNull tr.error, strOrNull tr.errorType⟩ with hrow
      set st2 : Store := { st with toolResults := st.toolResults ++ [row] } with hst2
      have hfresh2 : ∀ t ∈ rest, st2.toolResultExists t.id = false := by
        intro t ht
        have h1 := hfresh t (List.mem_cons_of_mem tr ht)
        have h2 : tr.id ≠ t.id := hhd t ht
        simp only [hst2, Store.toolResultExists, List.any_append] at *
        simp [h1, hrow]
        exact fun hcontra => h2 hcontra
      have hok2 : ∀ t ∈ rest, ∃ tuid2 mid2, strOrNull t.toolUseId = some tuid2 ∧
          strOrNull t.messageId = some mid2 ∧ st2.toolUseExists tuid2 = true ∧
          st2.messageExists mid2 = true := by
        intro t ht
        obtain ⟨a, b, h1, h2, h3, h4⟩ := hok t (List.mem_cons_of_mem tr ht)
        exact ⟨a, b, h1, h2, h3, h4⟩
      obtain ⟨rows, hrun, hrel⟩ := ih st2 (n + 1) hpw2 hfresh2 hok2
      refine ⟨row :: rows, ?_, ?_⟩
      · simp only [execToolResults, hex, Bool.false_eq_true, if_false, hins]
        rw [hrun]
        refine Prod.ext ?_ (Prod.ext ?_ rfl)
        · simp [hst2, List.append_assoc]
        · simp [Nat.add_assoc, Nat.add_comm 1 rest.length]
      · exact List.Forall₂.cons ⟨rfl, htu.symm, hmid.symm, rfl⟩ hrel

theorem contentItemsOf_eq_some {e : Entry} {l : List ContentItem}
    (h : contentItemsOf e = some l) :
    ∃ mp, e.message = some mp ∧ mp.content = some (.items l) := by
  unfold contentItemsOf at h
  cases hm : e.message with
  | none => simp [hm] at h
  | some mp =>
      simp only [hm] at h
      cases hc : mp.content with
      | none => simp [hc] at h
      | some cv =>
          cases cv with
          | str s => simp [hc] at h
          | items l2 =>
              simp only [hc] at h
              have hl := Option.some.inj h
              subst hl
              exact ⟨mp, rfl, hc⟩
          | other j => simp [hc] at h

theorem jsOr_some_empty (s : String) : jsOr (some s) "" = s := by
  unfold jsOr
  by_cases h : s = "" <;> simp [h]

theorem extractToolResultsAux_forall2 (f : Nat → String) (u : Option String)
    (l : List ContentItem) :
    ∀ n, (∀ ci ∈ l, ci.type = some "tool_result") →
    List.Forall₂ (fun (tr : ToolResultData) (ci : ContentItem) =>
      tr.toolUseId = ci.tool_use_id ∧ tr.messageId = u ∧
      tr.output = toolResultOutput ci.content ∧ tr.error = strOrNull ci.error)
      (extractToolResultsAux f u l n) l := by
  induction l with
  | nil => intro n _; exact List.Forall₂.nil
  | cons ci rest ih =>
      intro n hall
      have hty := (hall ci (List.mem_cons_self ci rest)).symm
      rw [extractToolResultsAux, if_pos hty.symm]
      exact List.Forall₂.cons ⟨rfl, rfl, rfl, rfl⟩
        (ih (n + 1) (fun c hc => hall c (List.mem_cons_of_mem ci hc)))

theorem extractToolResultsAux_id_ge (f : Nat → String) (u : Option String)
    (l : List ContentItem) :
    ∀ n, ∀ tr ∈ extractToolResultsAux f u l n, ∃ m, n ≤ m ∧ tr.id = f m := by
  induction l with
  | nil => intro n tr h; simp [extractToolResultsAux] at h
  | cons ci rest ih =>
      intro n tr h
      by_cases hty : ci.type = some "tool_result"
      · rw [extractToolResultsAux, if_pos hty] at h
        rcases List.mem_cons.mp h with rfl | h2
        · exact ⟨n, Nat.le_refl n, rfl⟩
        · obtain ⟨m, hm, hid⟩ := ih (n + 1) tr h2
          exact ⟨m, Nat.le_of_succ_le hm, hid⟩
      · rw [extractToolResultsAux, if_neg hty] at h
        exact ih n tr h

theorem extractToolResultsAux_pairwise (f : Nat → String) (u : Option String)
    (hinj : ∀ a b : Nat, a ≠ b → f a ≠ f b) (l : List ContentItem) :
    ∀ n, (extractToolResultsAux f u l n).Pairwise
      (fun (x y : ToolResultData) => x.id ≠ y.id) := by
  induction l with
  | nil => intro n; simp [extractToolResultsAux]
  | cons ci rest ih =>
      intro n
      by_cases hty : ci.type = some "tool_result"
      · rw [extractToolResultsAux, if_pos hty]
        refine List.pairwise_cons.mpr ⟨?_, ih (n + 1)⟩
        intro tr htr
        obtain ⟨m, hm, hid⟩ := extractToolResultsAux_id_ge f u rest (n + 1) tr htr
        simp only [hid]
        exact hinj n m (Nat.ne_of_lt hm)
      · rw [extractToolResultsAux, if_neg hty]
        exact ih n

theorem forall2_comp {α β γ : Type} {R : α → β → Prop} {S : β → γ → Prop}
    {l1 : List α} {l2 : List β} {l3 : List γ}
    (h1 : List.Forall₂ R l1 l2) (h2 : List.Forall₂ S l2 l3) :
    List.Forall₂ (fun a c => ∃ b, R a b ∧ S b c) l1 l3 := by
  induction h1 generalizing l3 with
  | nil => cases h2; exact List.Forall₂.nil
  | cons hr hrest ih =>
      cases h2 with
      | cons hs hsrest => exact List.Forall₂.cons ⟨_, hr, hs⟩ (ih hsrest)

theorem containsTools_of_results {e : Entry} {l : List ContentItem}
    (hitems : contentItemsOf e = some l) (hne : l ≠ [])
    (hall : ∀ ci ∈ l, ci.type = some "tool_result") :
    containsTools e = true := by
  unfold containsTools
  rw [hitems]
  cases l with
  | nil => exact absurd rfl hne
  | cons c rest =>
      refine List.any_eq_true.mpr ⟨c, List.mem_cons_self c rest, ?_⟩
      simp [hall c (List.mem_cons_self c rest)]

theorem hasNonToolTextContent_of_results {e : Entry} {l : List ContentItem}
    (hitems : contentItemsOf e = some l)
    (hall : ∀ ci ∈ l, ci.type = some "tool_result") :
    hasNonToolTextContent e = false := by
  obtain ⟨mp, hm, hc⟩ := contentItemsOf_eq_some hitems
  unfold hasNonToolTextContent
  rw [hm]
  simp only [hc]
  refine List.any_eq_false.mpr ?_
  intro ci hci
  simp [hall ci hci]

theorem classifyMessage_masked (now : String) {e : Entry} {l : List ContentItem}
    {u sid : String}
    (htype : e.type = some "user") (huuid : e.uuid = some u)
    (hsid : e.sessionId = some sid)
    (hitems : contentItemsOf e = some l) (hne : l ≠ [])
    (hall : ∀ ci ∈ l, ci.type = some "tool_result") :
    (classifyMessage now e).type = .tool_result_message ∧
    (classifyMessage now e).hasTextContent = false ∧
    (classifyMessage now e).messageId = u ∧
    (classifyMessage now e).sessionId = sid := by
  have hct := containsTools_of_results hitems hne hall
  have hht := hasNonToolTextContent_of_results hitems hall
  unfold classifyMessage
  refine ⟨?_, ?_, ?_, ?_⟩
  · simp [htype, hct]
  · simpa using hht
  · simpa [huuid] using jsOr_some_empty u
  · simpa [hsid] using jsOr_some_empty sid

theorem shouldStoreAsMessage_masked {c : ClassifiedMessage}
    (hty : c.type = .tool_result_message) (hht : c.hasTextContent = false) :
    shouldStoreAsMessage c = false := by
  unfold shouldStoreAsMessage
  simp [hty, hht]

theorem forall2_imp_mem {α β : Type} {R S : α → β → Prop} {l1 : List α} {l2 : List β}
    (h : List.Forall₂ R l1 l2)
    (himp : ∀ a b, a ∈ l1 → b ∈ l2 → R a b → S a b) :
    List.Forall₂ S l1 l2 := by
  induction h with
  | nil => exact List.Forall₂.nil
  | cons hr hrest ih =>
      refine List.Forall₂.cons
        (himp _ _ (List.mem_cons_self _ _) (List.mem_cons_self _ _) hr)
        (ih (fun a b ha hb => himp a b (List.mem_cons_of_mem _ ha)
          (List.mem_cons_of_mem _ hb)))

theorem parse_masked_facts (now path u sid : String) (freshId : Nat → String)
    (e : Entry) (l : List ContentItem)
    (htype : e.type = some "user") (huuid : e.uuid = some u)
    (hsid : e.sessionId = some sid)
    (hitems : contentItemsOf e = some l) (hne : l ≠ [])
    (hall : ∀ ci ∈ l, ci.type = some "tool_result") :
    (parseAndTransform now freshId e path).message = none ∧
    (parseAndTransform now freshId e path).session = ⟨sid, sid, path⟩ ∧
    (parseAndTransform now freshId e path).toolUses = [] ∧
    (parseAndTransform now freshId e path).toolResults =
      (extractToolResultsAux freshId (some u) l 0).map mapToToolResultRecord ∧
    (parseAndTransform now freshId e path).attachments = [] := by
  obtain ⟨hcty, hcht, hcmid, hcsid⟩ :=
    classifyMessage_masked now htype huuid hsid hitems hne hall
  have hshould := shouldStoreAsMessage_masked hcty hcht
  refine ⟨?_, ?_, ?_, ?_, ?_⟩
  · unfold parseAndTransform
    simp [hshould]
  · unfold parseAndTransform
    simp only []
    unfold createSessionRecord
    rw [hcsid]
  · rw [parseAndTransform_toolUses]
    have : extractToolUses e = [] := by
      unfold extractToolUses
      rw [hitems]
      refine List.filterMap_eq_nil_iff.mpr ?_
      intro ci hci
      rw [if_neg (by simp [hall ci hci])]
    rw [this]
    rfl
  · rw [parseAndTransform_toolResults]
    unfold extractToolResults
    rw [hitems, huuid]
  · unfold parseAndTransform
    simp [extractAttachments]

theorem parseAndTransform_errors (now : String) (f : Nat → String) (e : Entry)
    (path : String) :
    (parseAndTransform now f e path).errors =
      validateRecords
        (match (parseAndTransform now f e path).message with
          | some m => [m]
          | none => [])
        (parseAndTransform now f e path).toolUses
        (parseAndTransform now f e path).toolResults := rfl

theorem parse_masked_noerrors (now path u sid : String) (freshId : Nat → String)
    (e : Entry) (l : List ContentItem)
    (htype : e.type = some "user") (huuid : e.uuid = some u) (hu : u ≠ "")
    (hsid : e.sessionId = some sid)
    (hitems : contentItemsOf e = some l) (hne : l ≠ [])
    (hfrag : ∀ ci ∈ l, ci.type = some "tool_result" ∧
      ∃ t, ci.tool_use_id = some t ∧ t ≠ "")
    (hfr0 : ∀ n, freshId n ≠ "") :
    (parseAndTransform now freshId e path).errors = [] := by
  have hall : ∀ ci ∈ l, ci.type = some "tool_result" := fun ci hci => (hfrag ci hci).1
  obtain ⟨hm, hs, htus, htrs, hatt⟩ :=
    parse_masked_facts now path u sid freshId e l htype huuid hsid hitems hne hall
  rw [parseAndTransform_errors, hm, htus, htrs]
  unfold validateRecords
  simp only [List.map_nil, List.flatten_nil, List.nil_append, List.append_nil]
  rw [List.flatten_eq_nil_iff]
  intro x hx
  obtain ⟨r, hr, rfl⟩ := List.mem_map.mp hx
  obtain ⟨td, htd, rfl⟩ := List.mem_map.mp hr
  obtain ⟨m, _, hid⟩ := extractToolResultsAux_id_ge freshId (some u) l 0 td htd
  obtain ⟨ci, hci, hty, h1, h2, h3, h4, h5⟩ :=
    extractToolResultsAux_exists_of_mem freshId (some u) l 0 td htd
  obtain ⟨-, t, htuid, htne⟩ := hfrag ci hci
  unfold validateToolResultRecord
  simp [mapToToolResultRecord, hid, hfr0 m, h1, htuid, htne, h2, hu, strTruthy]

theorem insertEnvInfoRecord_succeeds {st : Store} {ei : EnvInfoRecord}
    (hex : st.envInfoExists ei.id = false)
    (hmex : st.messageExists ei.messageId = true) :
    insertEnvInfoRecord st ei = .ok { st with envInfos := st.envInfos ++
      [⟨ei.id, ei.messageId, strOrNull ei.workingDirectory, ei.isGitRepo,
        strOrNull ei.platform, strOrNull ei.osVersion, strOrNull ei.todaysDate⟩] } := by
  unfold insertEnvInfoRecord
  simp [hex, hmex]

theorem parseAndTransform_envInfo (now : String) (f : Nat → String) (e : Entry)
    (path : String) :
    (parseAndTransform now f e path).envInfo = extractEnvInfo e (classifyMessage now e) := rfl

theorem extractEnvInfo_messageId {e : Entry} {c : ClassifiedMessage} {ei : EnvInfoRecord}
    (h : extractEnvInfo e c = some ei) : ei.messageId = c.messageId := by
  unfold extractEnvInfo at h
  split at h
  · simp at h
  · have := Option.some.inj h
    rw [← this]

/-- C4: the masquerade decode end to end. An outward "user" entry whose
content is a nonempty list of tool_result fragments (each with a truthy
tool_use_id whose tool use is already persisted, and a nonempty string
content), whose uuid `u` is not yet a message id in the store: the parse
stage produces no message record (no displayable text); the executor
inserts exactly one synthetic placeholder message row with id `u`, kind
`tool_message` and no user/assistant text, so the tool-result foreign keys
resolve; it inserts exactly one `tool_use_results` row per fragment, in
order, carrying the fragment's tool_use_id, `u` as messageId, and the
fragment's content string as output; no tool-use row is added and no error
is reported. -/
theorem masquerade_tool_result_pipeline
    (now path u sid : String) (freshId : Nat → String) (e : Entry)
    (l : List ContentItem) (st0 : Store)
    (htype : e.type = some "user") (huuid : e.uuid = some u) (hu : u ≠ "")
    (hsid : e.sessionId = some sid)
    (hitems : contentItemsOf e = some l) (hne : l ≠ [])
    (hfrag : ∀ ci ∈ l, ci.type = some "tool_result" ∧
      (∃ t, ci.tool_use_id = some t ∧ t ≠ "" ∧ st0.toolUseExists t = true) ∧
      (∃ s, ci.content = some (.str s) ∧ s ≠ ""))
    (hsid1 : st0.sessionIdExists sid = false)
    (hsid2 : st0.sessionKeyExists sid = false)
    (hmsg0 : st0.messageExists u = false)
    (hfr0 : ∀ n, freshId n ≠ "")
    (hfr1 : ∀ n, st0.toolResultExists (freshId n) = false)
    (hfr2 : ∀ m n : Nat, m ≠ n → freshId m ≠ freshId n) :
    (parseAndTransform now freshId e path).message = none ∧
    (∃ mrow : MessageRow,
      (executeParsedEntries now st0 [parseAndTransform now freshId e path]).1.messages =
        st0.messages ++ [mrow] ∧
      mrow.id = u ∧ mrow.type = "tool_message" ∧ mrow.userText = none ∧
      mrow.assistantText = none) ∧
    (executeParsedEntries now st0 [parseAndTransform now freshId e path]).1.toolUses =
      st0.toolUses ∧
    (∃ rows : List ToolResultRow,
      (executeParsedEntries now st0
        [parseAndTransform now freshId e path]).1.toolResults =
        st0.toolResults ++ rows ∧
      List.Forall₂ (fun (row : ToolResultRow) (ci : ContentItem) =>
        ci.tool_use_id = some row.toolUseId ∧ row.messageId = u ∧
        ∃ s, ci.content = some (.str s) ∧ row.output = some s) rows l) ∧
    (executeParsedEntries now st0
      [parseAndTransform now freshId e path]).2.messagesInserted = 1 ∧
    (executeParsedEntries now st0
      [parseAndTransform now freshId e path]).2.messagesUpdated = 0 ∧
    (executeParsedEntries now st0
      [parseAndTransform now freshId e path]).2.toolUsesInserted = 0 ∧
    (executeParsedEntries now st0
      [parseAndTransform now freshId e path]).2.toolResultsInserted = l.length ∧
    (executeParsedEntries now st0
      [parseAndTransform now freshId e path]).2.errors = [] := by
  have hall : ∀ ci ∈ l, ci.type = some "tool_result" := fun ci hci => (hfrag ci hci).1
  obtain ⟨hcty, hcht, hcmid, hcsid⟩ :=
    classifyMessage_masked now htype huuid hsid hitems hne hall
  obtain ⟨hmsgp, hsesp, htusp, htrsp, hattp⟩ :=
    parse_masked_facts now path u sid freshId e l htype huuid hsid hitems hne hall
  have hfragW : ∀ ci ∈ l, ci.type = some "tool_result" ∧
      ∃ t, ci.tool_use_id = some t ∧ t ≠ "" := by
    intro ci hci
    obtain ⟨h1, ⟨t, ht1, ht2, _⟩, _⟩ := hfrag ci hci
    exact ⟨h1, t, ht1, ht2⟩
  have herrp := parse_masked_noerrors now path u sid freshId e l htype huuid hu hsid
    hitems hne hfragW hfr0
  set p := parseAndTransform now freshId e path with hpdef
  obtain ⟨c, rest, hl⟩ := List.exists_cons_of_ne_nil hne
  have hf2aux := extractToolResultsAux_forall2 freshId (some u) l 0 hall
  have hlenaux : (extractToolResultsAux freshId (some u) l 0).length = l.length :=
    List.Forall₂.length_eq hf2aux
  have hlenp : p.toolResults.length = l.length := by
    rw [htrsp, List.length_map, hlenaux]
  -- the first tool record carries messageId u
  have hhead : p.toolResults.head?.bind (·.messageId) = some u := by
    rw [htrsp, hl]
    rw [extractToolResultsAux,
      if_pos (hall c (hl ▸ List.mem_cons_self c rest))]
    rfl
  -- the executor's synthetic message target
  have hmti : messageToInsert now p = some (syntheticToolMessage now p u) := by
    unfold messageToInsert
    simp only [hmsgp, htusp]
    rw [if_pos ?hcnt]
    case hcnt =>
      simp only [List.length_nil, hlenp, hl, List.length_cons]
      simp
    simp only [List.head?_nil, hhead]
    simp [jsOrOpt, hu]
  have hens : ensureSessionRecord st0 p.session =
      { st0 with sessions := st0.sessions ++ [⟨sid, sid, path⟩] } := by
    rw [hsesp]
    unfold ensureSessionRecord
    rw [if_neg (by simp [hsid1, hsid2])]
  set st1 : Store := { st0 with sessions := st0.sessions ++ [⟨sid, sid, path⟩] } with hst1
  have hex1 : st1.messageExists (syntheticToolMessage now p u).id = false := by
    show st1.messageExists u = false
    exact hmsg0
  have hsk1 : st1.sessionKeyExists (syntheticToolMessage now p u).sessionId = true := by
    show st1.sessionKeyExists p.session.id = true
    rw [hsesp]
    simp [hst1, Store.sessionKeyExists, List.any_append]
  have hins := insertMessageRecord_succeeds hex1 hsk1
  set mrow : MessageRow :=
    ⟨(syntheticToolMessage now p u).id, (syntheticToolMessage now p u).sessionId,
     (syntheticToolMessage now p u).type, (syntheticToolMessage now p u).timestamp,
     (syntheticToolMessage now p u).isSidechain,
     strOrNull (syntheticToolMessage now p u).projectName,
     strOrNull (syntheticToolMessage now p u).activeFile,
     strOrNull (syntheticToolMessage now p u).userText,
     strOrNull (syntheticToolMessage now p u).userType,
     strOrNull (syntheticToolMessage now p u).userAttachments,
     strOrNull (syntheticToolMessage now p u).toolUseResultId,
     strOrNull (syntheticToolMessage now p u).toolUseResultName,
     strOrNull (syntheticToolMessage now p u).assistantRole,
     strOrNull (syntheticToolMessage now p u).assistantText,
     strOrNull (syntheticToolMessage now p u).assistantModel⟩ with hmrow
  set st2 : Store := { st1 with messages := st1.messages ++ [mrow] } with hst2
  have hcore : execEntryCore now st0 p = execEntryTail p [] st2 1 0 := by
    simp only [execEntryCore, herrp, List.map_nil, hens, hmti, hex1, Bool.false_eq_true,
      if_false, hins]
  have hpw : p.toolResults.Pairwise (fun a b => a.id ≠ b.id) := by
    rw [htrsp, List.pairwise_map]
    exact extractToolResultsAux_pairwise freshId (some u) hfr2 l 0
  have hfresh : ∀ tr ∈ p.toolResults, st2.toolResultExists tr.id = false := by
    intro tr htr
    rw [htrsp] at htr
    obtain ⟨td, htd, rfl⟩ := List.mem_map.mp htr
    obtain ⟨m, _, hid⟩ := extractToolResultsAux_id_ge freshId (some u) l 0 td htd
    show st2.toolResultExists td.id = false
    rw [hid]
    exact hfr1 m
  have hok : ∀ tr ∈ p.toolResults, ∃ tuid mid,
      strOrNull tr.toolUseId = some tuid ∧ strOrNull tr.messageId = some mid ∧
      st2.toolUseExists tuid = true ∧ st2.messageExists mid = true := by
    intro tr htr
    rw [htrsp] at htr
    obtain ⟨td, htd, rfl⟩ := List.mem_map.mp htr
    obtain ⟨ci, hci, hty, h1, h2, h3, h4, h5⟩ :=
      extractToolResultsAux_exists_of_mem freshId (some u) l 0 td htd
    obtain ⟨-, ⟨t, ht1, ht2, ht3⟩, -⟩ := hfrag ci hci
    refine ⟨t, u, ?_, ?_, ?_, ?_⟩
    · show strOrNull td.toolUseId = some t
      rw [h1, ht1]
      simp [strOrNull, ht2]
    · show strOrNull td.messageId = some u
      rw [h2]
      simp [strOrNull, hu]
    · exact ht3
    · simp only [hst2, hmrow, Store.messageExists, List.any_append]
      simp
      exact Or.inr rfl
  obtain ⟨rows, hrows, hrel⟩ := execToolResults_all_insert p.toolResults st2 0 hpw hfresh hok
  set st3 : Store := { st2 with toolResults := st2.toolResults ++ rows } with hst3
  have hf2p : List.Forall₂ (fun (r : ToolResultRecord) (ci : ContentItem) =>
      r.toolUseId = ci.tool_use_id ∧ r.messageId = some u ∧
      r.output = toolResultOutput ci.content) p.toolResults l := by
    rw [htrsp]
    refine List.forall₂_map_left_iff.mpr ?_
    refine hf2aux.imp ?_
    intro td ci h
    exact ⟨h.1, h.2.1, h.2.2.1⟩
  have hcomp := forall2_comp hrel hf2p
  have hfinal : List.Forall₂ (fun (row : ToolResultRow) (ci : ContentItem) =>
      ci.tool_use_id = some row.toolUseId ∧ row.messageId = u ∧
      ∃ s, ci.content = some (.str s) ∧ row.output = some s) rows l := by
    refine forall2_imp_mem hcomp ?_
    intro row ci hrow hci hr
    obtain ⟨r, ⟨hid, htu, hmid, hout⟩, ⟨h1, h2, h3⟩⟩ := hr
    obtain ⟨-, ⟨t, ht1, ht2, -⟩, ⟨s, hs1, hs2⟩⟩ := hfrag ci hci
    refine ⟨?_, ?_, s, hs1, ?_⟩
    · rw [h1, ht1] at htu
      simp [strOrNull, ht2] at htu
      rw [ht1, htu]
    · rw [h2] at hmid
      simp [strOrNull, hu] at hmid
      exact hmid
    · rw [h3, hs1] at hout
      have hres : toolResultOutput (some (.str s)) = some s := by
        simp [toolResultOutput, Json.jsTruthy, hs2]
      rw [hres] at hout
      simpa [strOrNull, hs2] using hout
  have hrun : executeParsedEntries now st0 [p] = execEntryCore now st0 p := by
    rw [executeParsedEntries_cons]
    simp [executeParsedEntries, ExecuteResult.add_empty]
  obtain ⟨stF, en, hfull, hm, ht, htrf⟩ : ∃ (stF : Store) (en : Nat),
      executeParsedEntries now st0 [p] =
        (stF, ⟨1, 0, 0, 0 + p.toolResults.length, 0, en, []⟩) ∧
      stF.messages = st0.messages ++ [mrow] ∧
      stF.toolUses = st0.toolUses ∧
      stF.toolResults = st0.toolResults ++ rows := by
    cases henvv : p.envInfo with
    | none =>
        have htail : execEntryTail p [] st2 1 0 =
            (st3, ⟨1, 0, 0, 0 + p.toolResults.length, 0, 0, []⟩) := by
          simp only [execEntryTail, htusp, execToolUses, hrows, hattp, execAttachments,
            henvv]
        exact ⟨st3, 0, by rw [hrun, hcore, htail], by simp [hst3, hst2, hst1],
          by simp [hst3, hst2, hst1], by simp [hst3, hst2, hst1]⟩
    | some ei =>
        have heq : extractEnvInfo e (classifyMessage now e) = some ei := by
          rw [← parseAndTransform_envInfo now freshId e path, ← hpdef]
          exact henvv
        have heim : ei.messageId = u := by
          rw [extractEnvInfo_messageId heq]
          exact hcmid
        by_cases hev : st3.envInfoExists ei.id = true
        · have htail : execEntryTail p [] st2 1 0 =
              (st3, ⟨1, 0, 0, 0 + p.toolResults.length, 0, 0, []⟩) := by
            simp [execEntryTail, htusp, execToolUses, hrows, hattp, execAttachments,
              henvv, hev]
          exact ⟨st3, 0, by rw [hrun, hcore, htail], by simp [hst3, hst2, hst1],
            by simp [hst3, hst2, hst1], by simp [hst3, hst2, hst1]⟩
        · have hev2 : st3.envInfoExists ei.id = false := by
            simpa using hev
          have hmex3 : st3.messageExists ei.messageId = true := by
            rw [heim]
            simp only [hst3, hst2, hmrow, Store.messageExists, List.any_append]
            simp
            exact Or.inr rfl
          have hins4 := insertEnvInfoRecord_succeeds hev2 hmex3
          set st4 : Store := { st3 with envInfos := st3.envInfos ++
            [⟨ei.id, ei.messageId, strOrNull ei.workingDirectory, ei.isGitRepo,
              strOrNull ei.platform, strOrNull ei.osVersion, strOrNull ei.todaysDate⟩] }
            with hst4
          have htail : execEntryTail p [] st2 1 0 =
              (st4, ⟨1, 0, 0, 0 + p.toolResults.length, 0, 1, []⟩) := by
            simp [execEntryTail, htusp, execToolUses, hrows, hattp, execAttachments,
              henvv, hev2, hins4]
          exact ⟨st4, 1, by rw [hrun, hcore, htail], by simp [hst4, hst3, hst2, hst1],
            by simp [hst4, hst3, hst2, hst1], by simp [hst4, hst3, hst2, hst1]⟩
  refine ⟨hmsgp, ⟨mrow, ?_, rfl, rfl, rfl, rfl⟩, ?_, ⟨rows, ?_, hfinal⟩,
    ?_, ?_, ?_, ?_, ?_⟩
  · rw [hfull]
    exact hm
  · rw [hfull]
    exact ht
  · rw [hfull]
    exact htrf
  · rw [hfull]
  · rw [hfull]
  · rw [hfull]
  · rw [hfull]
    show 0 + p.toolResults.length = l.length
    rw [Nat.zero_add]
    exact hlenp
  · rw [hfull]

theorem replFreshId_ne_empty (n : Nat) : replFreshId n ≠ "" := by
  unfold replFreshId
  intro h
  have hd := congrArg String.data h
  simp at hd

theorem replFreshId_injective (m n : Nat) (h : m ≠ n) : replFreshId m ≠ replFreshId n := by
  unfold replFreshId
  intro he
  apply h
  have hd := congrArg String.data he
  have hl := congrArg List.length hd
  simp at hl
  exact hl

/-- C4 witness: the pipeline theorem applied to the concrete spec scenario:
the masked result line for `toolu_1` (uuid `m2`) against the store that
already holds message `m1` and tool use `toolu_1`. -/
theorem masquerade_tool_result_pipeline_witness :
    (parseAndTransform "T3" replFreshId maskedResultEntry "/p").message = none ∧
    (executeParsedEntries "T3" maskedResultStore
      [parseAndTransform "T3" replFreshId maskedResultEntry "/p"]).2.messagesInserted = 1 ∧
    (executeParsedEntries "T3" maskedResultStore
      [parseAndTransform "T3" replFreshId maskedResultEntry "/p"]).2.toolResultsInserted = 1 ∧
    (executeParsedEntries "T3" maskedResultStore
      [parseAndTransform "T3" replFreshId maskedResultEntry "/p"]).2.errors = [] := by
  obtain ⟨h1, h2, h3, h4, h5, h6, h7, h8, h9⟩ :=
    masquerade_tool_result_pipeline "T3" "/p" "m2" "s1" replFreshId maskedResultEntry
      [{ type := some "tool_result", tool_use_id := some "toolu_1",
         content := some (.str "file contents") }] maskedResultStore
      rfl rfl (by decide) rfl rfl (by simp)
      (by
        intro ci hci
        rw [List.mem_singleton] at hci
        subst hci
        exact ⟨rfl, ⟨"toolu_1", rfl, by decide, rfl⟩, ⟨"file contents", rfl, by decide⟩⟩)
      rfl rfl rfl replFreshId_ne_empty (fun _ => rfl) replFreshId_injective
  exact ⟨h1, h5, h8, h9⟩

theorem processLinesAux_spec (decode : String → Option Json)
    (maxLineLength batchSize : Nat) :
    ∀ (lines : List String) (s : JsonlState) (n : Nat),
    (∀ l ∈ lines, jsTrim l ≠ "") →
    (processLinesAux decode maxLineLength batchSize s n lines).stats.totalLines =
        s.stats.totalLines + lines.length ∧
    (processLinesAux decode maxLineLength batchSize s n lines).stats.errorLines =
        s.stats.errorLines +
          (lines.filter (fun l => ! wellFormedLine decode maxLineLength l)).length ∧
    (processLinesAux decode maxLineLength batchSize s n lines).stats.processedLines +
        (processLinesAux decode maxLineLength batchSize s n lines).currentBatch.length =
      s.stats.processedLines + s.currentBatch.length +
        (lines.filter (wellFormedLine decode maxLineLength)).length ∧
    (processLinesAux decode maxLineLength batchSize s n lines).delivered.flatten ++
        (processLinesAux decode maxLineLength batchSize s n lines).currentBatch =
      s.delivered.flatten ++ s.currentBatch ++ expectedEntries decode maxLineLength n lines := by
  intro lines
  induction lines with
  | nil =>
      intro s n _
      simp [processLinesAux, expectedEntries]
  | cons line rest ih =>
      intro s n hnb
      have hnbr : ∀ l ∈ rest, jsTrim l ≠ "" := fun l hl => hnb l (List.mem_cons_of_mem _ hl)
      have hnbl : jsTrim line ≠ "" := hnb line (List.mem_cons_self _ _)
      have hstep : processLinesAux decode maxLineLength batchSize s n (line :: rest) =
          processLinesAux decode maxLineLength batchSize
            (processLine decode maxLineLength batchSize s n line) (n + 1) rest := rfl
      set P := processLine decode maxLineLength batchSize s n line with hP
      obtain ⟨i1, i2, i3, i4⟩ := ih P (n + 1) hnbr
      rw [hstep]
      by_cases hlen : line.length > maxLineLength
      · have hwf : wellFormedLine decode maxLineLength line = false := by
          unfold wellFormedLine
          rw [decide_eq_false (Nat.not_le.mpr hlen), Bool.false_and]
        have hPt : P.stats.totalLines = s.stats.totalLines + 1 := by
          simp [hP, processLine, hlen]
        have hPe : P.stats.errorLines = s.stats.errorLines + 1 := by
          simp [hP, processLine, hlen]
        have hPp : P.stats.processedLines = s.stats.processedLines := by
          simp [hP, processLine, hlen]
        have hPc : P.currentBatch = s.currentBatch := by
          simp [hP, processLine, hlen]
        have hPd : P.delivered = s.delivered := by
          simp [hP, processLine, hlen]
        have hexp : expectedEntries decode maxLineLength n (line :: rest) =
            expectedEntries decode maxLineLength (n + 1) rest := by
          simp [expectedEntries, hwf]
        refine ⟨?_, ?_, ?_, ?_⟩
        · rw [i1, hPt]
          simp
          omega
        · rw [i2, hPe]
          simp [List.filter_cons, hwf]
          omega
        · rw [i3, hPp, hPc]
          simp [List.filter_cons, hwf]
        · rw [i4, hPd, hPc, hexp]
      · have hle : line.length ≤ maxLineLength := Nat.not_lt.mp hlen
        cases hdec : decode line with
        | none =>
            have hwf : wellFormedLine decode maxLineLength line = false := by
              simp [wellFormedLine, hdec]
            have hPt : P.stats.totalLines = s.stats.totalLines + 1 := by
              simp [hP, processLine, hlen, hnbl, hdec]
            have hPe : P.stats.errorLines = s.stats.errorLines + 1 := by
              simp [hP, processLine, hlen, hnbl, hdec]
            have hPp : P.stats.processedLines = s.stats.processedLines := by
              simp [hP, processLine, hlen, hnbl, hdec]
            have hPc : P.currentBatch = s.currentBatch := by
              simp [hP, processLine, hlen, hnbl, hdec]
            have hPd : P.delivered = s.delivered := by
              simp [hP, processLine, hlen, hnbl, hdec]
            have hexp : expectedEntries decode maxLineLength n (line :: rest) =
                expectedEntries decode maxLineLength (n + 1) rest := by
              simp [expectedEntries, hwf]
            refine ⟨?_, ?_, ?_, ?_⟩
            · rw [i1, hPt]
              simp
              omega
            · rw [i2, hPe]
              simp [List.filter_cons, hwf]
              omega
            · rw [i3, hPp, hPc]
              simp [List.filter_cons, hwf]
            · rw [i4, hPd, hPc, hexp]
        | some data =>
            have hwf : wellFormedLine decode maxLineLength line = true := by
              simp [wellFormedLine, hdec, hle]
            have hexp : expectedEntries decode maxLineLength n (line :: rest) =
                ⟨data, n, line⟩ :: expectedEntries decode maxLineLength (n + 1) rest := by
              simp [expectedEntries, hwf, hdec]
            by_cases hflush : batchSize ≤ s.currentBatch.length + 1
            · have hPt : P.stats.totalLines = s.stats.totalLines + 1 := by
                simp [hP, processLine, hlen, hnbl, hdec, hflush]
              have hPe : P.stats.errorLines = s.stats.errorLines := by
                simp [hP, processLine, hlen, hnbl, hdec, hflush]
              have hPp : P.stats.processedLines =
                  s.stats.processedLines + (s.currentBatch.length + 1) := by
                simp [hP, processLine, hlen, hnbl, hdec, hflush]
              have hPc : P.currentBatch = [] := by
                simp [hP, processLine, hlen, hnbl, hdec, hflush]
              have hPd : P.delivered =
                  s.delivered ++ [s.currentBatch ++ [⟨data, n, line⟩]] := by
                simp [hP, processLine, hlen, hnbl, hdec, hflush]
              refine ⟨?_, ?_, ?_, ?_⟩
              · rw [i1, hPt]
                simp
                omega
              · rw [i2, hPe]
                simp [List.filter_cons, hwf]
              · rw [i3, hPp, hPc]
                simp [List.filter_cons, hwf]
                omega
              · rw [i4, hPd, hPc, hexp]
                simp [List.flatten_append, List.append_assoc]
            · have hPt : P.stats.totalLines = s.stats.totalLines + 1 := by
                simp [hP, processLine, hlen, hnbl, hdec, hflush]
              have hPe : P.stats.errorLines = s.stats.errorLines := by
                simp [hP, processLine, hlen, hnbl, hdec, hflush]
              have hPp : P.stats.processedLines = s.stats.processedLines := by
                simp [hP, processLine, hlen, hnbl, hdec, hflush]
              have hPc : P.currentBatch = s.currentBatch ++ [⟨data, n, line⟩] := by
                simp [hP, processLine, hlen, hnbl, hdec, hflush]
              have hPd : P.delivered = s.delivered := by
                simp [hP, processLine, hlen, hnbl, hdec, hflush]
              refine ⟨?_, ?_, ?_, ?_⟩
              · rw [i1, hPt]
                simp
                omega
              · rw [i2, hPe]
                simp [List.filter_cons, hwf]
              · rw [i3, hPp, hPc]
                simp [List.filter_cons, hwf]
                omega
              · rw [i4, hPd, hPc, hexp]
                simp [List.append_assoc]

/-- C7: stream resilience. For a file none of whose lines is blank (blank
lines are silently skipped by the processor and are neither well formed nor
malformed), the stream processor counts every line, reports exactly one
line error per malformed line (over-long or undecodable), counts exactly
the well-formed lines as processed, and the concatenation of the delivered
batches is exactly the well-formed entries in file order with their
original line numbers — a malformed line never stops the processing of the
lines after it. -/
theorem jsonl_stream_resilience (decode : String → Option Json)
    (maxLineLength batchSize : Nat) (lines : List String)
    (hnb : ∀ l ∈ lines, jsTrim l ≠ "") :
    (processFileLines decode maxLineLength batchSize lines).stats.totalLines =
      lines.length ∧
    (processFileLines decode maxLineLength batchSize lines).stats.errorLines =
      (lines.filter (fun l => ! wellFormedLine decode maxLineLength l)).length ∧
    (processFileLines decode maxLineLength batchSize lines).stats.processedLines =
      (lines.filter (wellFormedLine decode maxLineLength)).length ∧
    (processFileLines decode maxLineLength batchSize lines).delivered.flatten =
      expectedEntries decode maxLineLength 1 lines := by
  obtain ⟨i1, i2, i3, i4⟩ := processLinesAux_spec decode maxLineLength batchSize lines
    ⟨⟨0, 0, 0⟩, [], []⟩ 1 hnb
  simp only [List.flatten_nil, List.nil_append, List.length_nil, Nat.zero_add,
    List.append_nil] at i1 i2 i3 i4
  unfold processFileLines
  set s := processLinesAux decode maxLineLength batchSize ⟨⟨0, 0, 0⟩, [], []⟩ 1 lines with hs
  by_cases hb : s.currentBatch.length > 0
  · rw [if_pos hb]
    refine ⟨i1, i2, i3, ?_⟩
    show (s.delivered ++ [s.currentBatch]).flatten = _
    rw [List.flatten_append]
    simpa using i4
  · rw [if_neg hb]
    have hcb : s.currentBatch = [] := by
      cases hcb2 : s.currentBatch with
      | nil => rfl
      | cons a t =>
          rw [hcb2] at hb
          simp at hb
    rw [hcb] at i3 i4
    refine ⟨i1, i2, by simpa using i3, by simpa using i4⟩

/-- C7 witness: three non-blank lines — decodable, malformed, decodable —
with length bound 10 and batch size 2: one line error, two processed lines,
and both well-formed entries delivered in order. -/
theorem jsonl_stream_resilience_witness :
    (∀ l ∈ ["\x7b\x7d", "bad", "\x7b\x7d"], jsTrim l ≠ "") ∧
    (processFileLines sampleDecode 10 2 ["\x7b\x7d", "bad", "\x7b\x7d"]).stats.totalLines = 3 ∧
    (processFileLines sampleDecode 10 2 ["\x7b\x7d", "bad", "\x7b\x7d"]).stats.errorLines = 1 ∧
    (processFileLines sampleDecode 10 2
      ["\x7b\x7d", "bad", "\x7b\x7d"]).stats.processedLines = 2 ∧
    (processFileLines sampleDecode 10 2 ["\x7b\x7d", "bad", "\x7b\x7d"]).delivered.flatten =
      expectedEntries sampleDecode 10 1 ["\x7b\x7d", "bad", "\x7b\x7d"] := by
  have h := jsonl_stream_resilience sampleDecode 10 2 ["\x7b\x7d", "bad", "\x7b\x7d"]
    (by decide)
  refine ⟨by decide, ?_, ?_, ?_, h.2.2.2⟩
  · rw [h.1]
    decide
  · rw [h.2.1]
    decide
  · rw [h.2.2.1]
    decide

/-- C8: the pool contract. With the pool open: when the idle scan finds a
connection, it is an existing, idle member of the pool and `acquire`
returns it (marked in use, not newly created); when every connection is in
use and the pool is under the configured maximum, `acquire` creates and
returns a fresh handle; when the pool is at the maximum, `acquire` appends
the caller to the tail of the wait queue (where only the configured
acquire timeout can fail it); `release` marks the connection idle and, if
anyone is waiting, hands it to the oldest waiter — the head of the queue —
leaving the rest; the acquire-timeout only fails a caller still queued
(removing it), and finds nothing once a release has served it. -/
theorem pool_acquire_release_fifo (st : PoolState) (maxConnections waiter connId : Nat)
    (hcl : st.closed = false) :
    (∀ c, st.conns.find? (fun c => ! c.inUse) = some c →
      c ∈ st.conns ∧ c.inUse = false ∧
      DatabasePool.acquire st maxConnections waiter =
        (.acquired c.id false, { st with conns := setInUse st.conns c.id true })) ∧
    (st.conns.find? (fun c => ! c.inUse) = none → st.conns.length < maxConnections →
      DatabasePool.acquire st maxConnections waiter =
        (.acquired st.nextId true,
          { st with conns := st.conns ++ [⟨st.nextId, true⟩], nextId := st.nextId + 1 })) ∧
    (st.conns.find? (fun c => ! c.inUse) = none → ¬ st.conns.length < maxConnections →
      DatabasePool.acquire st maxConnections waiter =
        (.enqueued, { st with waitQueue := st.waitQueue ++ [waiter] })) ∧
    (st.waitQueue = [] →
      DatabasePool.release st connId =
        (none, { st with conns := setInUse st.conns connId false })) ∧
    (∀ w rest, st.waitQueue = w :: rest →
      DatabasePool.release st connId =
        (some w,
          { st with
            conns := setInUse (setInUse st.conns connId false) connId true
            waitQueue := rest })) ∧
    (st.waitQueue.contains waiter = true →
      DatabasePool.timeoutFire st waiter =
        (true, { st with waitQueue := st.waitQueue.erase waiter })) ∧
    (st.waitQueue.contains waiter = false →
      DatabasePool.timeoutFire st waiter = (false, st)) := by
  refine ⟨?_, ?_, ?_, ?_, ?_, ?_, ?_⟩
  · intro c hc
    refine ⟨List.mem_of_find?_eq_some hc, ?_, ?_⟩
    · have := List.find?_some hc
      simpa using this
    · simp [DatabasePool.acquire, hcl, hc]
  · intro hn hlt
    simp [DatabasePool.acquire, hcl, hn, hlt]
  · intro hn hge
    simp [DatabasePool.acquire, hcl, hn, hge]
  · intro hq
    simp [DatabasePool.release, hq]
  · intro w rest hq
    simp [DatabasePool.release, hq]
  · intro hc
    simp [DatabasePool.timeoutFire, hc]
    exact List.elem_iff.mp hc
  · intro hc
    simp [DatabasePool.timeoutFire, hc]
    intro hmem
    have : st.waitQueue.contains waiter = true := List.elem_iff.mpr hmem
    rw [this] at hc
    cases hc

/-- C8 witness: the contract at concrete pool states — reuse of the idle
connection 0, creation of connection 1 when all are busy under max 2,
enqueueing at max 1, a release serving the oldest of two waiters, and the
timeout removing a still-queued waiter. -/
theorem pool_acquire_release_fifo_witness :
    DatabasePool.acquire ⟨[⟨0, false⟩], 1, [], false⟩ 1 7 =
      (.acquired 0 false, ⟨[⟨0, true⟩], 1, [], false⟩) ∧
    DatabasePool.acquire ⟨[⟨0, true⟩], 1, [], false⟩ 2 7 =
      (.acquired 1 true, ⟨[⟨0, true⟩, ⟨1, true⟩], 2, [], false⟩) ∧
    DatabasePool.acquire ⟨[⟨0, true⟩], 1, [], false⟩ 1 7 =
      (.enqueued, ⟨[⟨0, true⟩], 1, [7], false⟩) ∧
    DatabasePool.release ⟨[⟨0, true⟩], 1, [7, 8], false⟩ 0 =
      (some 7, ⟨[⟨0, true⟩], 1, [8], false⟩) ∧
    DatabasePool.timeoutFire ⟨[⟨0, true⟩], 1, [7, 8], false⟩ 8 =
      (true, ⟨[⟨0, true⟩], 1, [7], false⟩) := by
  have h1 := pool_acquire_release_fifo ⟨[⟨0, false⟩], 1, [], false⟩ 1 7 0 rfl
  have h2 := pool_acquire_release_fifo ⟨[⟨0, true⟩], 1, [], false⟩ 2 7 0 rfl
  have h3 := pool_acquire_release_fifo ⟨[⟨0, true⟩], 1, [], false⟩ 1 7 0 rfl
  have h4 := pool_acquire_release_fifo ⟨[⟨0, true⟩], 1, [7, 8], false⟩ 1 8 0 rfl
  refine ⟨?_, ?_, ?_, ?_, ?_⟩
  · exact ((h1.1 ⟨0, false⟩ (by decide)).2.2).trans (by decide)
  · exact (h2.2.1 (by decide) (by decide)).trans (by decide)
  · exact (h3.2.2.1 (by decide) (by decide)).trans (by decide)
  · exact (h4.2.2.2.2.1 7 [8] rfl).trans (by decide)
  · exact (h4.2.2.2.2.2.1 (by decide)).trans (by decide)

theorem runSlidingWindowFrom_cons (limit : Nat) (acc : List RateLimitDecision)
    (prev : Option RateLimitEntry) (t : Nat) (times : List Nat) :
    runSlidingWindowFrom limit acc prev (t :: times) =
      runSlidingWindowFrom limit (acc ++ [(checkSlidingWindow prev t limit).1])
        (some (checkSlidingWindow prev t limit).2) times := rfl

theorem runSlidingWindowFrom_append (limit : Nat) (acc : List RateLimitDecision)
    (prev : Option RateLimitEntry) (xs ys : List Nat) :
    runSlidingWindowFrom limit acc prev (xs ++ ys) =
      runSlidingWindowFrom limit (runSlidingWindowFrom limit acc prev xs).1
        (runSlidingWindowFrom limit acc prev xs).2 ys := by
  unfold runSlidingWindowFrom
  rw [List.foldl_append]

theorem runSlidingWindowFrom_inWindow (limit : Nat) :
    ∀ (times : List Nat) (acc : List RateLimitDecision) (c t0 : Nat),
    (∀ t ∈ times, t0 ≤ t ∧ t ≤ t0 + slidingWindowSize) →
    c + times.length ≤ limit →
    ∃ ds, runSlidingWindowFrom limit acc (some ⟨c, t0, false, none⟩) times =
        (acc ++ ds, some ⟨c + times.length, t0, false, none⟩) ∧
      ds.length = times.length ∧ ∀ d ∈ ds, d.allowed = true := by
  intro times
  induction times with
  | nil =>
      intro acc c t0 _ _
      exact ⟨[], by simp [runSlidingWindowFrom], rfl, by simp⟩
  | cons t rest ih =>
      intro acc c t0 hin hc
      obtain ⟨h1, h2⟩ := hin t (List.mem_cons_self _ _)
      have hck : checkSlidingWindow (some ⟨c, t0, false, none⟩) t limit =
          (⟨true, none, some (limit - (c + 1))⟩, ⟨c + 1, t0, false, none⟩) := by
        have hnw : ¬ (t - t0 > slidingWindowSize) := by omega
        have hcnt : ¬ (c ≥ limit) := by
          simp only [List.length_cons] at hc
          omega
        simp [checkSlidingWindow, hnw, hcnt]
      have hstep : runSlidingWindowFrom limit acc (some ⟨c, t0, false, none⟩) (t :: rest) =
          runSlidingWindowFrom limit (acc ++ [⟨true, none, some (limit - (c + 1))⟩])
            (some ⟨c + 1, t0, false, none⟩) rest := by
        rw [runSlidingWindowFrom_cons, hck]
      obtain ⟨ds, hrun, hlen, hall⟩ := ih (acc ++ [⟨true, none, some (limit - (c + 1))⟩])
        (c + 1) t0 (fun x hx => hin x (List.mem_cons_of_mem _ hx))
        (by simp only [List.length_cons] at hc; omega)
      refine ⟨⟨true, none, some (limit - (c + 1))⟩ :: ds, ?_, by simp [hlen], ?_⟩
      · rw [hstep, hrun]
        simp [List.append_assoc]
        omega
      · intro d hd
        rcases List.mem_cons.mp hd with rfl | hd2
        · rfl
        · exact hall d hd2

/-- C9 counterexample: at the exact window boundary the denial carries a
zero retry-after. With budget 1, a request at t=0 is allowed; the second
request at t=60000 is still inside the window (`now - windowStart > 60000`
is false), is denied — but `Math.ceil((windowStart + 60000 - now) / 1000)`
is 0, so the reported retry-after is not strictly positive. -/
theorem slidingWindow_boundary_zero_retry :
    (runSlidingWindow 1 [0, 60000]).1 =
      [⟨true, none, some 0⟩, ⟨false, some 0, some 0⟩] := by decide

/-- C9 (amended): with a per-minute budget `limit`, a first request at `t0`
followed by in-window requests filling the budget are all allowed; the
next request, arriving strictly before `t0 + 60000`, is denied with a
retry-after of at least one second (never silently dropped); and a request
after the window has elapsed is allowed again. -/
theorem sliding_window_budget (limit t0 tdeny tlater : Nat) (ts : List Nat)
    (hts : ∀ t ∈ ts, t0 ≤ t ∧ t ≤ t0 + slidingWindowSize)
    (hlen : 1 + ts.length = limit)
    (hd1 : t0 ≤ tdeny) (hd2 : tdeny < t0 + slidingWindowSize)
    (hl : t0 + slidingWindowSize < tlater) :
    ∃ ds denyD lateD,
      (runSlidingWindow limit (t0 :: (ts ++ [tdeny, tlater]))).1 = ds ++ [denyD, lateD] ∧
      ds.length = limit ∧
      (∀ d ∈ ds, d.allowed = true) ∧
      denyD.allowed = false ∧
      (∃ ra, denyD.retryAfter = some ra ∧ 1 ≤ ra) ∧
      lateD.allowed = true := by
  have hlim : 1 ≤ limit := by omega
  have hck0 : checkSlidingWindow none t0 limit =
      (⟨true, none, some (limit - 1)⟩, ⟨1, t0, false, none⟩) := by
    have h0 : ¬ (0 ≥ limit) := by omega
    simp [checkSlidingWindow, h0]
  have hrw : runSlidingWindow limit (t0 :: (ts ++ [tdeny, tlater])) =
      runSlidingWindowFrom limit [⟨true, none, some (limit - 1)⟩]
        (some ⟨1, t0, false, none⟩) (ts ++ [tdeny, tlater]) := by
    show runSlidingWindowFrom limit [] none (t0 :: (ts ++ [tdeny, tlater])) = _
    rw [runSlidingWindowFrom_cons, hck0]
    simp
  obtain ⟨ds1, hrun1, hlen1, hall1⟩ := runSlidingWindowFrom_inWindow limit ts
    [⟨true, none, some (limit - 1)⟩] 1 t0 hts (by omega)
  rw [hlen] at hrun1
  have hckd : checkSlidingWindow (some ⟨limit, t0, false, none⟩) tdeny limit =
      (⟨false, some ((t0 + slidingWindowSize - tdeny + 999) / 1000), some 0⟩,
       ⟨limit, t0, true, some (t0 + slidingWindowSize)⟩) := by
    have hnw : ¬ (tdeny - t0 > slidingWindowSize) := by omega
    simp [checkSlidingWindow, hnw, le_refl]
  have hckl : checkSlidingWindow (some ⟨limit, t0, true, some (t0 + slidingWindowSize)⟩)
      tlater limit =
      (⟨true, none, some (limit - 1)⟩, ⟨1, tlater, false, none⟩) := by
    have hnw : tlater - t0 > slidingWindowSize := by omega
    have h0 : ¬ (0 ≥ limit) := by omega
    simp [checkSlidingWindow, hnw, h0]
  have hfull : (runSlidingWindow limit (t0 :: (ts ++ [tdeny, tlater]))).1 =
      (⟨true, none, some (limit - 1)⟩ :: ds1) ++
        [⟨false, some ((t0 + slidingWindowSize - tdeny + 999) / 1000), some 0⟩,
         ⟨true, none, some (limit - 1)⟩] := by
    rw [hrw, runSlidingWindowFrom_append, hrun1, runSlidingWindowFrom_cons, hckd,
      runSlidingWindowFrom_cons, hckl]
    simp [runSlidingWindowFrom, List.append_assoc]
  refine ⟨⟨true, none, some (limit - 1)⟩ :: ds1,
    ⟨false, some ((t0 + slidingWindowSize - tdeny + 999) / 1000), some 0⟩,
    ⟨true, none, some (limit - 1)⟩, hfull, ?_, ?_, rfl, ?_, rfl⟩
  · simp [hlen1]
    omega
  · intro d hd
    rcases List.mem_cons.mp hd with rfl | hd2
    · rfl
    · exact hall1 d hd2
  · refine ⟨(t0 + slidingWindowSize - tdeny + 999) / 1000, rfl, ?_⟩
    have hx : 1 * 1000 ≤ t0 + slidingWindowSize - tdeny + 999 := by omega
    exact (Nat.le_div_iff_mul_le (by norm_num)).mpr hx

/-- C9 witness: budget 2, requests at 100 and 200 allowed, the third at 300
denied with retry-after at least one second, a request at 70000 (after the
window) allowed again. -/
theorem sliding_window_budget_witness :
    (∀ t ∈ [200], 100 ≤ t ∧ t ≤ 100 + slidingWindowSize) ∧
    1 + ([200] : List Nat).length = 2 ∧
    300 < 100 + slidingWindowSize ∧
    100 + slidingWindowSize < 70000 ∧
    (∃ ds denyD lateD,
      (runSlidingWindow 2 (100 :: ([200] ++ [300, 70000]))).1 = ds ++ [denyD, lateD] ∧
      ds.length = 2 ∧
      (∀ d ∈ ds, d.allowed = true) ∧
      denyD.allowed = false ∧
      (∃ ra, denyD.retryAfter = some ra ∧ 1 ≤ ra) ∧
      lateD.allowed = true) :=
  ⟨by decide, by decide, by decide, by decide,
    sliding_window_budget 2 100 300 70000 [200] (by decide) (by decide) (by decide)
      (by decide) (by decide)⟩
